import Mathlib

/-!
Shallow embedding of the OMF record parser of `dostools`
(`src/dt_lib/src/objfile.rs`, together with the error type of
`src/dt_lib/src/error.rs`).

Conventions of the embedding:
* Byte buffers are `List Nat`; a real buffer has every entry `< 256`, and the
  theorems quantify over arbitrary `List Nat`, which subsumes byte buffers.
* Rust `usize` arithmetic is `Nat`.  A Rust cast `as u8` / `as u16` / `as u32`
  is written `% 256` / `% 65536` / `% 4294967296` at the places where the value
  being cast is not already provably below the width; where the cast is a
  provable no-op (e.g. after `&&& 7`) it is omitted.
* Each Rust `Parser` method becomes a function `Parser → POut α` where `POut`
  has three outcomes: `ok` (Rust `Ok`, carrying the mutated parser), `err`
  (Rust `Err`, carrying the mutated parser, since the Rust methods take
  `&mut self`), and `fault`, which marks exactly the places where the Rust
  code would panic: an out-of-range slice `&obj[i..j]`, an out-of-range index
  `obj[i]`, `unwrap()` of `None`, or `usize` subtraction underflow.
  `while` loops become fuel-indexed recursive functions; running out of fuel
  is also mapped to `fault` (and is proved unreachable for the fuel the
  callers pass).
* Rust `String`s are kept as their UTF-8 byte lists; `String::from_utf8`
  becomes the validity check `utf8Valid` (the standard UTF-8 acceptor that
  `String::from_utf8` implements).
-/

namespace DosTools

/-- `Error` of `src/dt_lib/src/error.rs`: a message plus an optional byte
offset. -/
structure ObjError where
  details : String
  offset : Option Nat
deriving DecidableEq

/-- `Error::new`: an error with no offset (used by the `TryFrom` enum
decoders). -/
def ObjError.new (details : String) : ObjError :=
  ⟨details, none⟩

/-- `Error::with_offset`. -/
def ObjError.with_offset (details : String) (offset : Nat) : ObjError :=
  ⟨details, some offset⟩

/-! ### Enumerations and record payload types (objfile.rs lines 1–506) -/

inductive FrameMethod where
  | Segdef | Grpdef | Extdef | PreviousDataRecord | Target
deriving DecidableEq

/-- `TryFrom<u8> for FrameMethod`. -/
def FrameMethod.try_from (val : Nat) : Except ObjError FrameMethod :=
  match val with
  | 0 => .ok .Segdef
  | 1 => .ok .Grpdef
  | 2 => .ok .Extdef
  | 4 => .ok .PreviousDataRecord
  | 5 => .ok .Target
  | v => .error (ObjError.new ("invalid frame method $" ++ toString v))

/-- `FrameMethod::has_datum`. -/
def FrameMethod.has_datum : FrameMethod → Bool
  | .Segdef => true
  | .Grpdef => true
  | .Extdef => true
  | _ => false

inductive TargetMethod where
  | Segdef | Grpdef | Extdef
  | SegdefNoDisplacement | GrpdefNoDisplacement | ExtdefNoDisplacement
deriving DecidableEq

/-- `TryFrom<u8> for TargetMethod`. -/
def TargetMethod.try_from (val : Nat) : Except ObjError TargetMethod :=
  match val with
  | 0 => .ok .Segdef
  | 1 => .ok .Grpdef
  | 2 => .ok .Extdef
  | 4 => .ok .SegdefNoDisplacement
  | 5 => .ok .GrpdefNoDisplacement
  | 6 => .ok .ExtdefNoDisplacement
  | v => .error (ObjError.new ("invalid target method $" ++ toString v))

inductive FixupLocation where
  | Byte | Word | Selector | LongPointer | LoaderWord
  | HighOrderByte | Offset32 | LoaderOffset32 | Pointer48
deriving DecidableEq

/-- `TryFrom<u8> for FixupLocation`. -/
def FixupLocation.try_from (val : Nat) : Except ObjError FixupLocation :=
  match val with
  | 0 => .ok .Byte
  | 1 => .ok .Word
  | 2 => .ok .Selector
  | 3 => .ok .LongPointer
  | 5 => .ok .LoaderWord
  | 9 => .ok .Offset32
  | 11 => .ok .Pointer48
  | 13 => .ok .LoaderOffset32
  | v => .error (ObjError.new ("invalid fixup location $" ++ toString v))

structure Fixup where
  is_seg_relative : Bool
  location : FixupLocation
  data_offset : Nat
  frame_thread : Option Nat
  frame_method : Option FrameMethod
  frame_datum : Option Nat
  target_thread : Option Nat
  target_method : Option TargetMethod
  target_datum : Option Nat
  target_displacement : Nat
deriving DecidableEq

inductive FixupSubrecord where
  | TargetThread (method : TargetMethod) (thread : Nat) (index : Nat)
  | FrameThread (method : FrameMethod) (thread : Nat) (index : Option Nat)
  | Fixup (fixup : Fixup)
deriving DecidableEq

structure StartAddress where
  fix_data : Nat
  frame_datum : Option Nat
  target_datum : Option Nat
  target_disp : Option Nat
deriving DecidableEq

inductive Align where
  | Absolute | Byte | Word | Paragraph | Page | Dword
deriving DecidableEq

/-- `TryFrom<u8> for Align`. -/
def Align.try_from (val : Nat) : Except ObjError Align :=
  match val with
  | 0 => .ok .Absolute
  | 1 => .ok .Byte
  | 2 => .ok .Word
  | 3 => .ok .Paragraph
  | 4 => .ok .Page
  | 5 => .ok .Dword
  | v => .error (ObjError.new ("invalid align $" ++ toString v))

inductive Combine where
  | Private | Public | Stack | Common
deriving DecidableEq

/-- `TryFrom<u8> for Combine` (2, 4 and 7 all map to `Public`). -/
def Combine.try_from (val : Nat) : Except ObjError Combine :=
  match val with
  | 0 => .ok .Private
  | 2 => .ok .Public
  | 4 => .ok .Public
  | 7 => .ok .Public
  | 5 => .ok .Stack
  | 6 => .ok .Common
  | v => .error (ObjError.new ("invalid combine $" ++ toString v))

structure AbsoluteSeg where
  frame : Nat
  offset : Nat
deriving DecidableEq

/-- `Segdef`.  The Rust field `class` is a Lean keyword and is spelled
`segclass` here. -/
structure Segdef where
  align : Align
  combine : Combine
  use32 : Bool
  abs : Option AbsoluteSeg
  length : Nat
  segclass : Option Nat
  name : Option Nat
  overlay : Option Nat
deriving DecidableEq

structure Extern where
  name : List Nat
  typeidx : Nat
deriving DecidableEq

structure Public where
  name : List Nat
  offset : Nat
  typeidx : Nat
deriving DecidableEq

structure Comdef where
  name : List Nat
  length : Nat
  datatype : Nat
  typeidx : Nat
deriving DecidableEq

structure ComentHeader where
  comtype : Nat
  comclass : Nat
deriving DecidableEq

structure WeakExtern where
  weak : Nat
  default : Nat
deriving DecidableEq

inductive Coment where
  | Unknown
  | Translator (text : List Nat)
  | MemoryModel (text : List Nat)
  | DosSeg
  | DefaultLibrary (name : List Nat)
  | LinkPassSeparator
  | NewOMF (text : List Nat)
  | Libmod (name : List Nat)
  | WeakExtern (externs : List WeakExtern)
  | User (text : List Nat)
deriving DecidableEq

inductive BakpatLocation where
  | Byte | Word | Dword
deriving DecidableEq

/-- `TryFrom<u8> for BakpatLocation` (2 and 9 both map to `Dword`). -/
def BakpatLocation.try_from (val : Nat) : Except ObjError BakpatLocation :=
  match val with
  | 0 => .ok .Byte
  | 1 => .ok .Word
  | 2 => .ok .Dword
  | 9 => .ok .Dword
  | v => .error (ObjError.new ("invalid BAKPAT location $" ++ toString v))

structure BakpatFixup where
  offset : Nat
  value : Nat
deriving DecidableEq

/-- `Alias`.  The Rust field `alias` is a Lean keyword and is spelled
`aliasname` here. -/
structure Alias where
  aliasname : List Nat
  substitute : List Nat
deriving DecidableEq

structure CExtern where
  name : Nat
  typeindex : Nat
deriving DecidableEq

inductive ComdatSelection where
  | NoMatch | PickAny | SameSize | ExactMatch
deriving DecidableEq

/-- `TryFrom<u8> for ComdatSelection` (dispatches on `val & 0xf0`). -/
def ComdatSelection.try_from (val : Nat) : Except ObjError ComdatSelection :=
  match val &&& 0xf0 with
  | 0x00 => .ok .NoMatch
  | 0x10 => .ok .PickAny
  | 0x20 => .ok .SameSize
  | 0x30 => .ok .ExactMatch
  | v => .error (ObjError.new ("invalid comdat selection $" ++ toString v))

inductive ComdatAllocation where
  | Explicit | FarCode | FarData | Code32 | Data32
deriving DecidableEq

/-- `TryFrom<u8> for ComdatAllocation` (dispatches on `val & 0x0f`). -/
def ComdatAllocation.try_from (val : Nat) : Except ObjError ComdatAllocation :=
  match val &&& 0x0f with
  | 0x00 => .ok .Explicit
  | 0x01 => .ok .FarCode
  | 0x02 => .ok .FarData
  | 0x03 => .ok .Code32
  | 0x04 => .ok .Data32
  | v => .error (ObjError.new ("invalid comdat allocation $" ++ toString v))

inductive ComdatAlign where
  | Segdef | Byte | Word | Paragraph | Page | Dword
deriving DecidableEq

/-- `TryFrom<u8> for ComdatAlign` (dispatches on `val & 0x0f`). -/
def ComdatAlign.try_from (val : Nat) : Except ObjError ComdatAlign :=
  match val &&& 0x0f with
  | 0x00 => .ok .Segdef
  | 0x01 => .ok .Byte
  | 0x02 => .ok .Word
  | 0x03 => .ok .Paragraph
  | 0x04 => .ok .Page
  | 0x05 => .ok .Dword
  | v => .error (ObjError.new ("invalid comdat align $" ++ toString v))

structure Comdat where
  flags : Nat
  selection : ComdatSelection
  allocation : ComdatAllocation
  align : ComdatAlign
  offset : Nat
  typeindex : Nat
  base_group : Option Nat
  base_seg : Option Nat
  base_frame : Option Nat
  name : Nat
  data : List Nat
deriving DecidableEq

/-- The `Record` enum (objfile.rs lines 485–506). -/
inductive Record where
  | None
  | Unknown (rectype : Nat)
  | THEADR (name : List Nat)
  | MODEND (main : Bool) (start_address : Option StartAddress)
  | LNAMES (names : List (List Nat))
  | SEGDEF (segs : List Segdef)
  | GRPDEF (name : Nat) (segs : List Nat)
  | EXTDEF (externs : List Extern)
  | PUBDEF (group : Option Nat) (seg : Option Nat) (frame : Option Nat) (publics : List Public)
  | COMENT (header : ComentHeader) (coment : Coment)
  | LEDATA (seg : Nat) (offset : Nat) (data : List Nat)
  | BAKPAT (seg : Nat) (location : BakpatLocation) (fixups : List BakpatFixup)
  | FIXUPP (fixups : List FixupSubrecord)
  | COMDEF (commons : List Comdef)
  | CEXTDEF (externs : List CExtern)
  | LEXTDEF (externs : List Extern)
  | LPUBDEF (group : Option Nat) (seg : Option Nat) (frame : Option Nat) (publics : List Public)
  | ALIAS (aliases : List Alias)
  | COMDAT (comdat : Comdat)
deriving DecidableEq

/-! ### The parser state, outcome type and monad -/

/-- The `Parser` struct (objfile.rs lines 508–513): the borrowed buffer plus
the three cursor fields. -/
structure Parser where
  obj : List Nat
  start : Nat
  ptr : Nat
  next : Nat
deriving DecidableEq

/-- Outcome of one parser operation.  `fault` marks a Rust panic site. -/
inductive POut (α : Type) where
  | ok : α → Parser → POut α
  | err : ObjError → Parser → POut α
  | fault : POut α
deriving DecidableEq

/-- Parser-state monad over `POut`. -/
def PM (α : Type) : Type := Parser → POut α

instance : Monad PM where
  pure a := fun s => .ok a s
  bind m f := fun s =>
    match m s with
    | .ok a s' => f a s'
    | .err e s' => .err e s'
    | .fault => .fault

def getS : PM Parser := fun s => .ok s s

def setS (s' : Parser) : PM Unit := fun _ => .ok () s'

def faultM {α : Type} : PM α := fun _ => .fault

/-- `Parser::err`: build an `ObjError` carrying `self.start` as offset. -/
def errM {α : Type} (msg : String) : PM α :=
  fun s => .err (ObjError.with_offset msg s.start) s

/-- Lift a pure `Except` computation (a Rust `try_into()?`) into the monad;
the parser state is untouched. -/
def liftE {α : Type} : Except ObjError α → PM α
  | .ok a => fun s => .ok a s
  | .error e => fun s => .err e s

/-- Rust slice `&obj[i..j]`: panics unless `i ≤ j ∧ j ≤ obj.length`. -/
def sliceB {α : Type} (obj : List Nat) (i j : Nat) (k : List Nat → PM α) : PM α :=
  fun s =>
    if i ≤ j ∧ j ≤ obj.length then k ((obj.drop i).take (j - i)) s else .fault

/-- Rust index `obj[i]`: panics unless `i < obj.length`. -/
def indexB {α : Type} (obj : List Nat) (i : Nat) (k : Nat → PM α) : PM α :=
  fun s =>
    if h : i < obj.length then k (obj.get ⟨i, h⟩) s else .fault

/-- Rust `usize` subtraction `a - b`: underflow is a panic. -/
def subB {α : Type} (a b : Nat) (k : Nat → PM α) : PM α :=
  fun s => if b ≤ a then k (a - b) s else .fault

/-! ### Cursor primitives (objfile.rs lines 515–605) -/

/-- `Parser::endrec`: `self.next - 1` ("record end does not include checksum
byte"). -/
def Parser.endrecM {α : Type} (k : Nat → PM α) : PM α :=
  fun s => subB s.next 1 k s

/-- `Parser::uint`: little-endian accumulation
`value = (value << 8) | data[bytes - i]` from the last byte down to the
first. -/
def Parser.uint (data : List Nat) : Nat :=
  data.foldr (fun byte value => (value <<< 8) ||| byte) 0

/-- `Parser::next_uint`. -/
def Parser.next_uint (size : Nat) : PM Nat :=
  Parser.endrecM fun e => fun s =>
    if s.ptr + size > e then
      errM "next_uint: record is truncated" s
    else
      sliceB s.obj s.ptr (s.ptr + size)
        (fun bytes => fun _ =>
          .ok (Parser.uint bytes) { s with ptr := s.ptr + size }) s

/-- The UTF-8 validity check performed by Rust `String::from_utf8`. -/
def utf8Cont (b : Nat) : Bool :=
  decide (0x80 ≤ b ∧ b ≤ 0xbf)

def utf8Valid : List Nat → Bool
  | [] => true
  | b :: rest =>
    if b < 0x80 then utf8Valid rest
    else if 0xc2 ≤ b ∧ b ≤ 0xdf then
      match rest with
      | b1 :: r => utf8Cont b1 && utf8Valid r
      | [] => false
    else if b = 0xe0 then
      match rest with
      | b1 :: b2 :: r => decide (0xa0 ≤ b1 ∧ b1 ≤ 0xbf) && utf8Cont b2 && utf8Valid r
      | _ => false
    else if 0xe1 ≤ b ∧ b ≤ 0xec then
      match rest with
      | b1 :: b2 :: r => utf8Cont b1 && utf8Cont b2 && utf8Valid r
      | _ => false
    else if b = 0xed then
      match rest with
      | b1 :: b2 :: r => decide (0x80 ≤ b1 ∧ b1 ≤ 0x9f) && utf8Cont b2 && utf8Valid r
      | _ => false
    else if 0xee ≤ b ∧ b ≤ 0xef then
      match rest with
      | b1 :: b2 :: r => utf8Cont b1 && utf8Cont b2 && utf8Valid r
      | _ => false
    else if b = 0xf0 then
      match rest with
      | b1 :: b2 :: b3 :: r =>
        decide (0x90 ≤ b1 ∧ b1 ≤ 0xbf) && utf8Cont b2 && utf8Cont b3 && utf8Valid r
      | _ => false
    else if 0xf1 ≤ b ∧ b ≤ 0xf3 then
      match rest with
      | b1 :: b2 :: b3 :: r => utf8Cont b1 && utf8Cont b2 && utf8Cont b3 && utf8Valid r
      | _ => false
    else if b = 0xf4 then
      match rest with
      | b1 :: b2 :: b3 :: r =>
        decide (0x80 ≤ b1 ∧ b1 ≤ 0x8f) && utf8Cont b2 && utf8Cont b3 && utf8Valid r
      | _ => false
    else false

/-- `Parser::next_str`: length byte, then that many bytes, UTF-8 checked.
NOTE (faithful to the source): the body bound is checked against
`self.obj.len()`, not against `endrec()`. -/
def Parser.next_str : PM (List Nat) :=
  Parser.endrecM fun e => fun s =>
    if s.ptr ≥ e then
      errM "next_str: no length byte" s
    else
      indexB s.obj s.ptr
        (fun len => fun _ =>
          let s1 : Parser := { s with ptr := s.ptr + 1 }
          if s1.ptr + len > s1.obj.length then
            errM "next_str: string is truncated" s1
          else
            sliceB s1.obj s1.ptr (s1.ptr + len)
              (fun bytes => fun _ =>
                if utf8Valid bytes then
                  .ok bytes { s1 with ptr := s1.ptr + len }
                else
                  errM "next_str: invalid utf-8" { s1 with ptr := s1.ptr + len }) s1) s

/-- `Parser::rest_str`: `&obj[ptr..endrec()]`, UTF-8 checked, cursor moved to
`endrec()`. -/
def Parser.rest_str : PM (List Nat) :=
  Parser.endrecM fun e => fun s =>
    sliceB s.obj s.ptr e
      (fun bytes => fun _ =>
        if utf8Valid bytes then
          .ok bytes { s with ptr := e }
        else
          errM "rest_str: invalid utf-8" { s with ptr := e }) s

/-- `Parser::next_index`: OMF variable-length index. -/
def Parser.next_index : PM Nat := do
  let index ← Parser.next_uint 1
  if index < 0x80 then
    pure index
  else do
    let b2 ← Parser.next_uint 1
    pure (((index &&& 0x7f) <<< 8) ||| b2)

/-- `Parser::next_opt_index`: 0 maps to `none`. -/
def Parser.next_opt_index : PM (Option Nat) := do
  let index ← Parser.next_index
  match index with
  | 0 => pure none
  | v => pure (some v)

/-- `Parser::checksum` (a static function on a byte slice): `none` models the
panicking `bytes.last().unwrap()` on an empty slice; if the final byte is 0
the checksum is accepted outright, otherwise the sum of all the bytes masked
with `0xff` must be zero. -/
def Parser.checksum (bytes : List Nat) : Option Bool :=
  match bytes.getLast? with
  | Option.none => none
  | some lastByte =>
    if lastByte = 0 then some true
    else some (decide (bytes.sum &&& 0xff = 0))

/-! ### Sub-decoders (objfile.rs lines 607–1102)

Rust `while self.ptr < self.endrec()` loops become fuel-indexed recursive
functions (`fault` on fuel exhaustion, proved unreachable below); each loop
body is split into its own `…Body` definition mirroring the body of the Rust
loop verbatim. -/

/-- `Parser::modend`, line 625: the frame datum is read only when the frame is
not a thread reference and the method carries a datum. -/
def Parser.modendFrameDatum (f_thread : Bool) (f_method : FrameMethod) :
    PM (Option Nat) :=
  if f_thread || !f_method.has_datum then pure Option.none
  else Parser.next_opt_index

/-- `Parser::modend`, line 626. -/
def Parser.modendTargetDatum (t_thread : Bool) : PM (Option Nat) :=
  if t_thread then pure Option.none else Parser.next_opt_index

/-- `Parser::modend`, line 627. -/
def Parser.modendTargetDisp (p_displ : Bool) (bytes : Nat) : PM (Option Nat) :=
  if !p_displ then do
    let v ← Parser.next_uint bytes
    pure (some (v % 4294967296))
  else pure Option.none

/-- `Parser::modend`. -/
def Parser.modend (is32 : Bool) : PM Record := do
  let modtype ← Parser.next_uint 1
  let main := decide (modtype &&& 0x80 ≠ 0)
  let has_start := decide (modtype &&& 0x40 ≠ 0)
  let bytes := if is32 then 4 else 2
  let start_address ←
    if !has_start then
      pure Option.none
    else do
      let fd ← Parser.next_uint 1
      let fix_data := fd % 256
      let f_thread := decide (fix_data &&& 0x80 ≠ 0)
      let f_method ← liftE (FrameMethod.try_from ((fix_data >>> 4) &&& 7))
      let t_thread := decide (fix_data &&& 0x08 ≠ 0)
      let p_displ := decide (fix_data &&& 0x04 ≠ 0)
      let frame_datum ← Parser.modendFrameDatum f_thread f_method
      let target_datum ← Parser.modendTargetDatum t_thread
      let target_disp ← Parser.modendTargetDisp p_displ bytes
      pure (some (StartAddress.mk fix_data frame_datum target_datum target_disp))
  pure (Record.MODEND main start_address)

/-- Body of the `Parser::lnames` loop. -/
def Parser.lnamesLoop : Nat → List (List Nat) → PM (List (List Nat))
  | 0, _ => faultM
  | fuel+1, names => fun s =>
    if s.next < 1 then .fault
    else if s.ptr < s.next - 1 then
      match Parser.next_str s with
      | .ok nm s' => Parser.lnamesLoop fuel (names ++ [nm]) s'
      | .err e s' => .err e s'
      | .fault => .fault
    else .ok names s

/-- `Parser::lnames`. -/
def Parser.lnames : PM Record := do
  let s ← getS
  let names ← Parser.lnamesLoop (s.obj.length + 1) []
  pure (Record.LNAMES names)

/-- `Parser::segdef`, absolute-segment part of the loop body (lines 657–664). -/
def Parser.segdefAbs (align : Align) : PM (Option AbsoluteSeg) :=
  if align = Align.Absolute then do
    let frame ← Parser.next_uint 2
    let offset ← Parser.next_uint 1
    pure (some (AbsoluteSeg.mk (frame % 65536) (offset % 256)))
  else
    pure Option.none

/-- `Parser::segdef`, length part of the loop body (lines 666–673): read the
length field; if BIG is set a nonzero field is an error, a zero field decodes
to `1 << 16` / `1 << 32`. -/
def Parser.segdefLen (is32 : Bool) (big : Bool) : PM Nat := do
  let length ← Parser.next_uint (if is32 then 4 else 2)
  if big then
    if length ≠ 0 then errM "length not zero when BIG bit it set"
    else pure (1 <<< (if is32 then 32 else 16))
  else pure length

/-- Body of the `Parser::segdef` loop (lines 650–688). -/
def Parser.segdefBody (is32 : Bool) : PM Segdef := do
  let a ← Parser.next_uint 1
  let acbp := a % 256
  let align ← liftE (Align.try_from (acbp >>> 5))
  let combine ← liftE (Combine.try_from ((acbp >>> 2) &&& 7))
  let big := decide (acbp &&& 2 ≠ 0)
  let use32 := decide (acbp &&& 1 ≠ 0)
  let abs ← Parser.segdefAbs align
  let length ← Parser.segdefLen is32 big
  let segclass ← Parser.next_opt_index
  let name ← Parser.next_opt_index
  let overlay ← Parser.next_opt_index
  pure (Segdef.mk align combine use32 abs length segclass name overlay)

def Parser.segdefLoop (is32 : Bool) : Nat → List Segdef → PM (List Segdef)
  | 0, _ => faultM
  | fuel+1, segs => fun s =>
    if s.next < 1 then .fault
    else if s.ptr < s.next - 1 then
      match Parser.segdefBody is32 s with
      | .ok seg s' => Parser.segdefLoop is32 fuel (segs ++ [seg]) s'
      | .err e s' => .err e s'
      | .fault => .fault
    else .ok segs s

/-- `Parser::segdef`. -/
def Parser.segdef (is32 : Bool) : PM Record := do
  let s ← getS
  let segs ← Parser.segdefLoop is32 (s.obj.length + 1) []
  pure (Record.SEGDEF segs)

/-- Body of the `Parser::grpdef` loop (lines 699–706). -/
def Parser.grpdefBody : PM Nat := do
  let typ ← Parser.next_uint 1
  let index ← Parser.next_index
  if typ ≠ 0xff then errM "grpdef segment with type other than FF"
  else pure index

def Parser.grpdefLoop : Nat → List Nat → PM (List Nat)
  | 0, _ => faultM
  | fuel+1, segs => fun s =>
    if s.next < 1 then .fault
    else if s.ptr < s.next - 1 then
      match Parser.grpdefBody s with
      | .ok idx s' => Parser.grpdefLoop fuel (segs ++ [idx]) s'
      | .err e s' => .err e s'
      | .fault => .fault
    else .ok segs s

/-- `Parser::grpdef`: note that the loop accepts an empty segment list. -/
def Parser.grpdef : PM Record := do
  let name ← Parser.next_index
  let s ← getS
  let segs ← Parser.grpdefLoop (s.obj.length + 1) []
  pure (Record.GRPDEF name segs)

/-- Body of the `Parser::make_externs` loop. -/
def Parser.make_externsBody : PM Extern := do
  let name ← Parser.next_str
  let typeidx ← Parser.next_index
  pure (Extern.mk name typeidx)

def Parser.make_externsLoop : Nat → List Extern → PM (List Extern)
  | 0, _ => faultM
  | fuel+1, externs => fun s =>
    if s.next < 1 then .fault
    else if s.ptr < s.next - 1 then
      match Parser.make_externsBody s with
      | .ok x s' => Parser.make_externsLoop fuel (externs ++ [x]) s'
      | .err e s' => .err e s'
      | .fault => .fault
    else .ok externs s

/-- `Parser::make_externs`. -/
def Parser.make_externs (rec : List Extern → Record) : PM Record := do
  let s ← getS
  let externs ← Parser.make_externsLoop (s.obj.length + 1) []
  pure (rec externs)

/-- `Parser::extdef`. -/
def Parser.extdef : PM Record :=
  Parser.make_externs (fun externs => Record.EXTDEF externs)

/-- `Parser::lextdef`. -/
def Parser.lextdef : PM Record :=
  Parser.make_externs (fun externs => Record.LEXTDEF externs)

/-- Body of the `Parser::alias` loop. -/
def Parser.aliasBody : PM Alias := do
  let a ← Parser.next_str
  let substitute ← Parser.next_str
  pure (Alias.mk a substitute)

def Parser.aliasLoop : Nat → List Alias → PM (List Alias)
  | 0, _ => faultM
  | fuel+1, aliases => fun s =>
    if s.next < 1 then .fault
    else if s.ptr < s.next - 1 then
      match Parser.aliasBody s with
      | .ok x s' => Parser.aliasLoop fuel (aliases ++ [x]) s'
      | .err e s' => .err e s'
      | .fault => .fault
    else .ok aliases s

/-- `Parser::alias` (`alias` is a Lean keyword, hence `aliasRec`). -/
def Parser.aliasRec : PM Record := do
  let s ← getS
  let aliases ← Parser.aliasLoop (s.obj.length + 1) []
  pure (Record.ALIAS aliases)

/-- Body of the publics loop shared textually by `Parser::pubdef` and
`Parser::lpubdef` (lines 760–766 and 785–791). -/
def Parser.pubdefBody (is32 : Bool) : PM Public := do
  let name ← Parser.next_str
  let offset ← Parser.next_uint (if is32 then 4 else 2)
  let typeidx ← Parser.next_index
  pure (Public.mk name (offset % 4294967296) typeidx)

def Parser.pubdefLoop (is32 : Bool) : Nat → List Public → PM (List Public)
  | 0, _ => faultM
  | fuel+1, publics => fun s =>
    if s.next < 1 then .fault
    else if s.ptr < s.next - 1 then
      match Parser.pubdefBody is32 s with
      | .ok x s' => Parser.pubdefLoop is32 fuel (publics ++ [x]) s'
      | .err e s' => .err e s'
      | .fault => .fault
    else .ok publics s

/-- `Parser::pubdef`. -/
def Parser.pubdef (is32 : Bool) : PM Record := do
  let group ← Parser.next_opt_index
  let seg ← Parser.next_opt_index
  let frame ←
    if group.isNone && seg.isNone then do
      let v ← Parser.next_uint 2
      pure (some (v % 65536))
    else pure Option.none
  let s ← getS
  let publics ← Parser.pubdefLoop is32 (s.obj.length + 1) []
  pure (Record.PUBDEF group seg frame publics)

/-- `Parser::lpubdef` (structurally identical to `pubdef`, duplicated in the
source). -/
def Parser.lpubdef (is32 : Bool) : PM Record := do
  let group ← Parser.next_opt_index
  let seg ← Parser.next_opt_index
  let frame ←
    if group.isNone && seg.isNone then do
      let v ← Parser.next_uint 2
      pure (some (v % 65536))
    else pure Option.none
  let s ← getS
  let publics ← Parser.pubdefLoop is32 (s.obj.length + 1) []
  pure (Record.LPUBDEF group seg frame publics)

/-- `Parser::ledata`: the remainder of the payload (`&obj[ptr..endrec()]`) is
the data. -/
def Parser.ledata (is32 : Bool) : PM Record := do
  let seg ← Parser.next_index
  let offset ← Parser.next_uint (if is32 then 4 else 2)
  Parser.endrecM fun e => fun s =>
    sliceB s.obj s.ptr e
      (fun data => fun s0 =>
        .ok (Record.LEDATA seg (offset % 4294967296) data) s0) s

/-- Body of the `Parser::bakpat` loop. -/
def Parser.bakpatBody (is32 : Bool) : PM BakpatFixup := do
  let offset ← Parser.next_uint (if is32 then 4 else 2)
  let value ← Parser.next_uint (if is32 then 4 else 2)
  pure (BakpatFixup.mk (offset % 4294967296) (value % 4294967296))

def Parser.bakpatLoop (is32 : Bool) : Nat → List BakpatFixup → PM (List BakpatFixup)
  | 0, _ => faultM
  | fuel+1, fixups => fun s =>
    if s.next < 1 then .fault
    else if s.ptr < s.next - 1 then
      match Parser.bakpatBody is32 s with
      | .ok x s' => Parser.bakpatLoop is32 fuel (fixups ++ [x]) s'
      | .err e s' => .err e s'
      | .fault => .fault
    else .ok fixups s

/-- `Parser::bakpat`. -/
def Parser.bakpat (is32 : Bool) : PM Record := do
  let seg ← Parser.next_index
  let l ← Parser.next_uint 1
  let location ← liftE (BakpatLocation.try_from (l % 256))
  let s ← getS
  let fixups ← Parser.bakpatLoop is32 (s.obj.length + 1) []
  pure (Record.BAKPAT seg location fixups)

/-- `Parser::fixupp`, line 844: a frame-thread subrecord reads an index only
when its method carries a datum. -/
def Parser.fixupThreadIndex (method : FrameMethod) : PM (Option Nat) :=
  if method.has_datum then do
    let i ← Parser.next_index
    pure (some i)
  else pure Option.none

/-- `Parser::fixupp`, lines 868–872. -/
def Parser.fixupFrameMethod (frame_uses_thread : Bool) (fixdata : Nat) :
    PM (Option FrameMethod) :=
  if frame_uses_thread then pure Option.none
  else do
    let m ← liftE (FrameMethod.try_from ((fixdata >>> 4) &&& 7))
    pure (some m)

/-- `Parser::fixupp`, lines 874–878. -/
def Parser.fixupTargetMethod (target_uses_thread : Bool) (fixdata : Nat) :
    PM (Option TargetMethod) :=
  if target_uses_thread then pure Option.none
  else do
    let m ← liftE (TargetMethod.try_from (fixdata &&& 7))
    pure (some m)

/-- `Parser::fixupp`, lines 880–887. -/
def Parser.fixupFrameDatum (frame_method : Option FrameMethod) :
    PM (Option Nat) :=
  match frame_method with
  | some method =>
    if method.has_datum then do
      let i ← Parser.next_index
      pure (some i)
    else pure Option.none
  | Option.none => pure Option.none

/-- `Parser::fixupp`, lines 889–893. -/
def Parser.fixupTargetDatum (target_method : Option TargetMethod) :
    PM (Option Nat) :=
  if target_method.isNone then pure Option.none
  else do
    let i ← Parser.next_index
    pure (some i)

/-- `Parser::fixupp`, lines 895–900. -/
def Parser.fixupTargetDisp (is32 : Bool) (fixdata : Nat) : PM Nat :=
  if fixdata &&& 0x04 ≠ 0 then pure 0
  else do
    let v ← Parser.next_uint (if is32 then 4 else 2)
    pure (v % 4294967296)

/-- Body of the `Parser::fixupp` loop (lines 825–917). -/
def Parser.fixuppBody (is32 : Bool) : PM FixupSubrecord := do
  let l ← Parser.next_uint 1
  let lead := l % 256
  if lead &&& 0x80 = 0 then
    -- thread subrecord
    let thread := lead &&& 3
    if lead &&& 0x40 = 0 then do
      -- target thread: only the lower two bits of the method field are used
      let method ← liftE (TargetMethod.try_from ((lead >>> 2) &&& 3))
      let index ← Parser.next_index
      pure (FixupSubrecord.TargetThread method thread index)
    else do
      -- frame thread
      let method ← liftE (FrameMethod.try_from ((lead >>> 2) &&& 7))
      let index ← Parser.fixupThreadIndex method
      pure (FixupSubrecord.FrameThread method thread index)
  else do
    let is_seg_relative := decide (lead &&& 0x40 ≠ 0)
    let location ← liftE (FixupLocation.try_from ((lead >>> 2) &&& 0x0f))
    let low ← Parser.next_uint 1
    let data_offset := ((lead &&& 3) <<< 8) ||| low
    let fixdata ← Parser.next_uint 1
    let frame_uses_thread := decide (fixdata &&& 0x80 ≠ 0)
    let target_uses_thread := decide (fixdata &&& 0x08 ≠ 0)
    let frame_thread := if frame_uses_thread then some ((fixdata >>> 4) &&& 3) else Option.none
    let target_thread := if target_uses_thread then some (fixdata &&& 3) else Option.none
    let frame_method ← Parser.fixupFrameMethod frame_uses_thread fixdata
    let target_method ← Parser.fixupTargetMethod target_uses_thread fixdata
    let frame_datum ← Parser.fixupFrameDatum frame_method
    let target_datum ← Parser.fixupTargetDatum target_method
    let target_displacement ← Parser.fixupTargetDisp is32 fixdata
    pure (FixupSubrecord.Fixup (Fixup.mk is_seg_relative location data_offset
      frame_thread frame_method frame_datum target_thread target_method
      target_datum target_displacement))

def Parser.fixuppLoop (is32 : Bool) : Nat → List FixupSubrecord → PM (List FixupSubrecord)
  | 0, _ => faultM
  | fuel+1, fixups => fun s =>
    if s.next < 1 then .fault
    else if s.ptr < s.next - 1 then
      match Parser.fixuppBody is32 s with
      | .ok x s' => Parser.fixuppLoop is32 fuel (fixups ++ [x]) s'
      | .err e s' => .err e s'
      | .fault => .fault
    else .ok fixups s

/-- `Parser::fixupp`. -/
def Parser.fixupp (is32 : Bool) : PM Record := do
  let s ← getS
  let fixups ← Parser.fixuppLoop is32 (s.obj.length + 1) []
  pure (Record.FIXUPP fixups)

/-- `Parser::comlength`: COMDEF encoded length. -/
def Parser.comlength : PM Nat := do
  let byte ← Parser.next_uint 1
  if byte ≤ 0x80 then pure byte
  else
    match byte with
    | 0x81 => Parser.next_uint 2
    | 0x82 => Parser.next_uint 3
    | 0x83 => Parser.next_uint 4
    | x => errM ("invalid encoded length lead byte " ++ toString x)

/-- Body of the `Parser::comdef` loop. -/
def Parser.comdefBody : PM Comdef := do
  let name ← Parser.next_str
  let typeidx ← Parser.next_index
  let d ← Parser.next_uint 1
  let datatype := d % 256
  let length ← Parser.comlength
  let length ←
    if datatype = 0x61 then do
      -- far length: the product of length * element size
      let l2 ← Parser.comlength
      pure (length * l2)
    else pure length
  pure (Comdef.mk name length datatype typeidx)

def Parser.comdefLoop : Nat → List Comdef → PM (List Comdef)
  | 0, _ => faultM
  | fuel+1, commons => fun s =>
    if s.next < 1 then .fault
    else if s.ptr < s.next - 1 then
      match Parser.comdefBody s with
      | .ok x s' => Parser.comdefLoop fuel (commons ++ [x]) s'
      | .err e s' => .err e s'
      | .fault => .fault
    else .ok commons s

/-- `Parser::comdef`. -/
def Parser.comdef : PM Record := do
  let s ← getS
  let commons ← Parser.comdefLoop (s.obj.length + 1) []
  pure (Record.COMDEF commons)

/-- Body of the `Parser::cextdef` loop. -/
def Parser.cextdefBody : PM CExtern := do
  let name ← Parser.next_index
  let typeindex ← Parser.next_index
  pure (CExtern.mk name typeindex)

def Parser.cextdefLoop : Nat → List CExtern → PM (List CExtern)
  | 0, _ => faultM
  | fuel+1, externs => fun s =>
    if s.next < 1 then .fault
    else if s.ptr < s.next - 1 then
      match Parser.cextdefBody s with
      | .ok x s' => Parser.cextdefLoop fuel (externs ++ [x]) s'
      | .err e s' => .err e s'
      | .fault => .fault
    else .ok externs s

/-- `Parser::cextdef`. -/
def Parser.cextdef : PM Record := do
  let s ← getS
  let externs ← Parser.cextdefLoop (s.obj.length + 1) []
  pure (Record.CEXTDEF externs)

/-- Data loop of `Parser::comdat` (lines 996–998). -/
def Parser.comdatDataLoop : Nat → List Nat → PM (List Nat)
  | 0, _ => faultM
  | fuel+1, data => fun s =>
    if s.next < 1 then .fault
    else if s.ptr < s.next - 1 then
      match Parser.next_uint 1 s with
      | .ok b s' => Parser.comdatDataLoop fuel (data ++ [b % 256]) s'
      | .err e s' => .err e s'
      | .fault => .fault
    else .ok data s

/-- `Parser::comdat`, lines 986–990: the absolute frame is read only when
both the group and the segment are absent. -/
def Parser.comdatBaseFrame (base_group base_seg : Option Nat) :
    PM (Option Nat) :=
  if base_group.isNone && base_seg.isNone then do
    let v ← Parser.next_uint 2
    pure (some (v % 65536))
  else pure Option.none

/-- `Parser::comdat`.  The three `try_into()?` conversions happen after all
the reads, in the order of the struct literal. -/
def Parser.comdat (is32 : Bool) : PM Record := do
  let f ← Parser.next_uint 1
  let flags := f % 256
  let a ← Parser.next_uint 1
  let attributes := a % 256
  let al ← Parser.next_uint 1
  let align := al % 256
  let offset ← Parser.next_uint (if is32 then 4 else 2)
  let typeindex ← Parser.next_index
  let base_group ← Parser.next_opt_index
  let base_seg ← Parser.next_opt_index
  let base_frame ← Parser.comdatBaseFrame base_group base_seg
  let name ← Parser.next_index
  let s ← getS
  let data ← Parser.comdatDataLoop (s.obj.length + 1) []
  let selection ← liftE (ComdatSelection.try_from attributes)
  let allocation ← liftE (ComdatAllocation.try_from attributes)
  let align ← liftE (ComdatAlign.try_from align)
  pure (Record.COMDAT (Comdat.mk flags selection allocation align
    (offset % 4294967296) typeindex base_group base_seg base_frame name data))

/-- `Parser::coment_translator`. -/
def Parser.coment_translator (header : ComentHeader) : PM Record := do
  let text ← Parser.rest_str
  pure (Record.COMENT header (Coment.Translator text))

/-- `Parser::coment_new_omf`. -/
def Parser.coment_new_omf (header : ComentHeader) : PM Record := do
  let text ← Parser.rest_str
  pure (Record.COMENT header (Coment.NewOMF text))

/-- `Parser::coment_memory_model`. -/
def Parser.coment_memory_model (header : ComentHeader) : PM Record := do
  let text ← Parser.rest_str
  pure (Record.COMENT header (Coment.MemoryModel text))

/-- `Parser::coment_default_library`. -/
def Parser.coment_default_library (header : ComentHeader) : PM Record := do
  let name ← Parser.rest_str
  pure (Record.COMENT header (Coment.DefaultLibrary name))

/-- `Parser::coment_libmod`: unlike most other coment strings, libmod is a
counted string. -/
def Parser.coment_libmod (header : ComentHeader) : PM Record := do
  let name ← Parser.next_str
  pure (Record.COMENT header (Coment.Libmod name))

/-- Body of the `Parser::coment_weak_extern` loop. -/
def Parser.coment_weak_externBody : PM WeakExtern := do
  let weak ← Parser.next_index
  let dflt ← Parser.next_index
  pure (WeakExtern.mk weak dflt)

def Parser.coment_weak_externLoop : Nat → List WeakExtern → PM (List WeakExtern)
  | 0, _ => faultM
  | fuel+1, externs => fun s =>
    if s.next < 1 then .fault
    else if s.ptr < s.next - 1 then
      match Parser.coment_weak_externBody s with
      | .ok x s' => Parser.coment_weak_externLoop fuel (externs ++ [x]) s'
      | .err e s' => .err e s'
      | .fault => .fault
    else .ok externs s

/-- `Parser::coment_weak_extern`. -/
def Parser.coment_weak_extern (header : ComentHeader) : PM Record := do
  let s ← getS
  let externs ← Parser.coment_weak_externLoop (s.obj.length + 1) []
  pure (Record.COMENT header (Coment.WeakExtern externs))

/-- `Parser::coment_user`. -/
def Parser.coment_user (header : ComentHeader) : PM Record := do
  let text ← Parser.rest_str
  pure (Record.COMENT header (Coment.User text))

/-- `Parser::coment`: the comment-class dispatch. -/
def Parser.coment : PM Record := do
  let ct ← Parser.next_uint 1
  let comtype := ct % 256
  let cc ← Parser.next_uint 1
  let comclass := cc % 256
  let header := ComentHeader.mk comtype comclass
  match comclass with
  | 0x00 => Parser.coment_translator header
  | 0x9d => Parser.coment_memory_model header
  | 0x9e => pure (Record.COMENT header Coment.DosSeg)
  | 0x9f => Parser.coment_default_library header
  | 0xa1 => Parser.coment_new_omf header
  | 0xa2 => pure (Record.COMENT header Coment.LinkPassSeparator)
  | 0xa3 => Parser.coment_libmod header
  | 0xa8 => Parser.coment_weak_extern header
  | 0xdf => Parser.coment_user header
  | _ => pure (Record.COMENT header Coment.Unknown)

/-- `Parser::record`: the record-type dispatch (lines 1104–1134). -/
def Parser.record (rectype : Nat) : PM Record :=
  match rectype with
  | 0x80 => do
      let name ← Parser.next_str
      pure (Record.THEADR name)
  | 0x88 => Parser.coment
  | 0x8a => Parser.modend false
  | 0x8b => Parser.modend true
  | 0x8c => Parser.extdef
  | 0x90 => Parser.pubdef false
  | 0x91 => Parser.pubdef true
  | 0x96 => Parser.lnames
  | 0x98 => Parser.segdef false
  | 0x99 => Parser.segdef true
  | 0x9a => Parser.grpdef
  | 0x9c => Parser.fixupp false
  | 0x9d => Parser.fixupp true
  | 0xa0 => Parser.ledata false
  | 0xa1 => Parser.ledata true
  | 0xb0 => Parser.comdef
  | 0xb2 => Parser.bakpat false
  | 0xb3 => Parser.bakpat true
  | 0xb4 => Parser.lextdef
  | 0xb5 => Parser.lextdef
  | 0xb6 => Parser.lpubdef false
  | 0xb7 => Parser.lpubdef true
  | 0xbc => Parser.cextdef
  | 0xc2 => Parser.comdat false
  | 0xc3 => Parser.comdat true
  | 0xc6 => Parser.aliasRec
  | t => fun s => .ok (Record.Unknown t) s

/-- `Parser::next` (lines 1136–1159).  The Rust method is called `next`; the
`Parser` structure already has a field of that name, hence `nextRec`. -/
def Parser.nextRec : PM Record := fun s =>
  -- self.ptr = self.next; self.next = self.obj.len();
  let s0 : Parser := { s with ptr := s.next, next := s.obj.length }
  if s0.ptr ≥ s0.obj.length then
    .ok Record.None s0
  else if s0.next - s0.ptr < 3 then
    .err (ObjError.with_offset "record header truncated" s0.start) s0
  else
    (do
      let t ← Parser.next_uint 1
      let len ← Parser.next_uint 2
      (fun s1 =>
        if s1.ptr + len > s1.obj.length then
          errM "record body truncated" s1
        else
          (let s2 : Parser := { s1 with next := s1.ptr + len }
           sliceB s2.obj s2.start s2.next
             (fun chk => fun s3 =>
               match Parser.checksum chk with
               | Option.none => .fault
               | some chkOk =>
                 if !chkOk then errM "checksum failed" s3
                 else Parser.record (t % 256) s3) s2) : PM Record)) s0

/-- `Parser::new`. -/
def Parser.new (obj : List Nat) : Parser :=
  ⟨obj, 0, 0, 0⟩

/-- The parser state left behind by one call to `next()` (the Rust method
mutates `self` on both `Ok` and `Err`; the `fault` case is dead by the
no-panic theorem). -/
def Parser.stateAfter (s : Parser) : Parser :=
  match Parser.nextRec s with
  | .ok _ s' => s'
  | .err _ s' => s'
  | .fault => s

/-- The parser state after `k` calls to `next()` starting from
`Parser::new`. -/
def Parser.iterState (obj : List Nat) : Nat → Parser
  | 0 => Parser.new obj
  | k+1 => Parser.stateAfter (Parser.iterState obj k)

/-! ### Invariants used by the proofs -/

/-- The in-record well-formedness invariant: `next` (the frame end) is
positive and within the buffer.  It holds whenever `record` is invoked from
`nextRec`. -/
def Inv (s : Parser) : Prop :=
  1 ≤ s.next ∧ s.next ≤ s.obj.length

/-- `StOk strict s r`: the outcome `r` of running an operation at state `s`
is not a `fault`, and the result state keeps `obj`, `start` and `next`
untouched; on success the cursor does not move backwards (`strict = true`:
it moved strictly forwards). -/
def StOk {α : Type} (strict : Bool) (s : Parser) : POut α → Prop
  | .ok _ s' =>
    s'.obj = s.obj ∧ s'.start = s.start ∧ s'.next = s.next ∧
      cond strict (s.ptr < s'.ptr) (s.ptr ≤ s'.ptr)
  | .err _ s' => s'.obj = s.obj ∧ s'.start = s.start ∧ s'.next = s.next
  | .fault => False

/-! ## Lemmas -/

theorem PM.bind_def {α β : Type} (m : PM α) (k : α → PM β) (s : Parser) :
    (m >>= k) s =
      match m s with
      | .ok a s' => k a s'
      | .err e s' => .err e s'
      | .fault => .fault := rfl

theorem PM.pure_def {α : Type} (a : α) (s : Parser) :
    (pure a : PM α) s = .ok a s := rfl

theorem bind_ok {α β : Type} {m : PM α} {k : α → PM β} {s : Parser} {b : β}
    {s' : Parser} (h : (m >>= k) s = .ok b s') :
    ∃ a s₁, m s = .ok a s₁ ∧ k a s₁ = .ok b s' := by
  rw [PM.bind_def] at h
  cases hm : m s with
  | ok a s₁ => rw [hm] at h; exact ⟨a, s₁, rfl, h⟩
  | err e s₁ => rw [hm] at h; cases h
  | fault => rw [hm] at h; cases h

theorem StOk_pure {α : Type} (a : α) (s : Parser) :
    StOk false s ((pure a : PM α) s) :=
  ⟨rfl, rfl, rfl, Nat.le_refl _⟩

theorem StOk_errM {α : Type} (b : Bool) (msg : String) (s : Parser) :
    StOk b s ((errM msg : PM α) s) :=
  ⟨rfl, rfl, rfl⟩

theorem StOk_liftE {α : Type} (r : Except ObjError α) (s : Parser) :
    StOk false s (liftE r s) := by
  cases r with
  | ok a => exact ⟨rfl, rfl, rfl, Nat.le_refl _⟩
  | error e => exact ⟨rfl, rfl, rfl⟩

theorem StOk_getS (s : Parser) : StOk false s (getS s) :=
  ⟨rfl, rfl, rfl, Nat.le_refl _⟩

theorem StOk.weaken {α : Type} {s : Parser} {r : POut α}
    (h : StOk true s r) : StOk false s r := by
  cases r with
  | ok a s' =>
    simp only [StOk, cond_true, cond_false] at h ⊢
    exact ⟨h.1, h.2.1, h.2.2.1, Nat.le_of_lt h.2.2.2⟩
  | err e s' => exact h
  | fault => exact h.elim

theorem StOk.bind {α β : Type} (b1 b2 : Bool) {m : PM α} {k : α → PM β}
    {s : Parser} (hm : StOk b1 s (m s))
    (hk : ∀ a s₁, m s = .ok a s₁ → StOk b2 s₁ (k a s₁)) :
    StOk (b1 || b2) s ((m >>= k) s) := by
  cases hms : m s with
  | ok a s₁ =>
    have hb : (m >>= k) s = k a s₁ := by rw [PM.bind_def, hms]
    rw [hb]
    rw [hms] at hm
    have hf := hk a s₁ hms
    cases hkr : k a s₁ with
    | ok bb s₂ =>
      rw [hkr] at hf
      simp only [StOk] at hm hf ⊢
      obtain ⟨h1, h2, h3, h4⟩ := hm
      obtain ⟨g1, g2, g3, g4⟩ := hf
      refine ⟨g1.trans h1, g2.trans h2, g3.trans h3, ?_⟩
      cases b1 <;> cases b2 <;>
        simp only [Bool.or_self, Bool.or_true, Bool.true_or, Bool.false_or,
          cond_true, cond_false] at h4 g4 ⊢ <;> omega
    | err e s₂ =>
      rw [hkr] at hf
      simp only [StOk] at hm hf ⊢
      obtain ⟨h1, h2, h3, _⟩ := hm
      obtain ⟨g1, g2, g3⟩ := hf
      exact ⟨g1.trans h1, g2.trans h2, g3.trans h3⟩
    | fault => rw [hkr] at hf; exact hf.elim
  | err e s₁ =>
    have hb : (m >>= k) s = .err e s₁ := by rw [PM.bind_def, hms]
    rw [hb]
    rw [hms] at hm
    exact hm
  | fault =>
    have hb : (m >>= k) s = .fault := by rw [PM.bind_def, hms]
    rw [hb]
    rw [hms] at hm
    exact hm.elim

theorem StOk.trans_frame {α : Type} {s s' : Parser} {r : POut α}
    (h1 : s'.obj = s.obj) (h2 : s'.start = s.start) (h3 : s'.next = s.next)
    (h4 : s.ptr ≤ s'.ptr) (h : StOk false s' r) : StOk false s r := by
  cases r with
  | ok a s₂ =>
    simp only [StOk, cond_false] at h ⊢
    exact ⟨h.1.trans h1, h.2.1.trans h2, h.2.2.1.trans h3,
      Nat.le_trans h4 h.2.2.2⟩
  | err e s₂ =>
    simp only [StOk] at h ⊢
    exact ⟨h.1.trans h1, h.2.1.trans h2, h.2.2.trans h3⟩
  | fault => exact h.elim

theorem Inv.trans {s s' : Parser} (h1 : s'.obj = s.obj) (h3 : s'.next = s.next)
    (hInv : Inv s) : Inv s' :=
  ⟨h3 ▸ hInv.1, by rw [h3, h1]; exact hInv.2⟩

theorem StOk.ok_elim {α : Type} {b : Bool} {s s' : Parser} {a : α}
    {r : POut α} (hst : StOk b s r) (h : r = .ok a s') :
    s'.obj = s.obj ∧ s'.start = s.start ∧ s'.next = s.next ∧
      cond b (s.ptr < s'.ptr) (s.ptr ≤ s'.ptr) := by
  subst h
  simpa only [StOk] using hst

theorem StOk.err_elim {α : Type} {b : Bool} {s s' : Parser} {e : ObjError}
    {r : POut α} (hst : StOk b s r) (h : r = .err e s') :
    s'.obj = s.obj ∧ s'.start = s.start ∧ s'.next = s.next := by
  subst h
  simpa only [StOk] using hst

theorem Inv.of_ok {α : Type} {b : Bool} {s s' : Parser} {a : α} {r : POut α}
    (hst : StOk b s r) (h : r = .ok a s') (hInv : Inv s) : Inv s' := by
  obtain ⟨h1, _, h3, _⟩ := hst.ok_elim h
  exact Inv.trans h1 h3 hInv

/-! ### Primitive cursor lemmas -/

theorem next_uint_st (n : Nat) (s : Parser) (hInv : Inv s) :
    StOk false s (Parser.next_uint n s) := by
  obtain ⟨hn1, hn2⟩ := hInv
  simp only [Parser.next_uint, Parser.endrecM, subB, sliceB, errM]
  split_ifs with h1 h2
  · exact ⟨rfl, rfl, rfl⟩
  · exact ⟨rfl, rfl, rfl, Nat.le_add_right _ _⟩
  · exact h2 ⟨Nat.le_add_right _ _, by omega⟩

theorem next_uint_st1 (n : Nat) (s : Parser) (hInv : Inv s) (hn : 0 < n) :
    StOk true s (Parser.next_uint n s) := by
  obtain ⟨hn1, hn2⟩ := hInv
  simp only [Parser.next_uint, Parser.endrecM, subB, sliceB, errM]
  split_ifs with h1 h2
  · exact ⟨rfl, rfl, rfl⟩
  · exact ⟨rfl, rfl, rfl, Nat.lt_add_of_pos_right hn⟩
  · exact h2 ⟨Nat.le_add_right _ _, by omega⟩

theorem next_uint_ok {n v : Nat} {s s' : Parser}
    (h : Parser.next_uint n s = .ok v s') :
    s' = ⟨s.obj, s.start, s.ptr + n, s.next⟩ ∧
      v = Parser.uint ((s.obj.drop s.ptr).take n) ∧
      s.ptr + n + 1 ≤ s.next := by
  simp only [Parser.next_uint, Parser.endrecM, subB, sliceB, errM,
    Nat.add_sub_cancel_left] at h
  split_ifs at h with h1 h2 h3
  injection h with hv hs
  subst hs
  subst hv
  exact ⟨rfl, rfl, by omega⟩

theorem next_uint_err {n : Nat} {e : ObjError} {s s' : Parser}
    (h : Parser.next_uint n s = .err e s') :
    s' = s ∧ e = ObjError.with_offset "next_uint: record is truncated" s.start := by
  simp only [Parser.next_uint, Parser.endrecM, subB, sliceB, errM] at h
  split_ifs at h with h1 h2 h3
  injection h with hv hs
  exact ⟨hs.symm, hv.symm⟩

theorem next_str_st (s : Parser) (hInv : Inv s) :
    StOk true s (Parser.next_str s) := by
  obtain ⟨hn1, hn2⟩ := hInv
  simp only [Parser.next_str, Parser.endrecM, subB, sliceB, indexB, errM]
  split_ifs with h1 h2 h3 h4 h5
  · exact ⟨rfl, rfl, rfl⟩
  · exact ⟨rfl, rfl, rfl⟩
  · exact ⟨rfl, rfl, rfl,
      Nat.lt_of_lt_of_le (Nat.lt_succ_self s.ptr) (Nat.le_add_right (s.ptr + 1) _)⟩
  · exact ⟨rfl, rfl, rfl⟩
  · exact h4 ⟨Nat.le_add_right _ _, by omega⟩
  · exact h2 (by omega)

theorem next_str_ok {v : List Nat} {s s' : Parser}
    (h : Parser.next_str s = .ok v s') :
    s'.obj = s.obj ∧ s'.start = s.start ∧ s'.next = s.next ∧
      s.ptr + 1 ≤ s'.ptr := by
  simp only [Parser.next_str, Parser.endrecM, subB, sliceB, indexB, errM] at h
  split_ifs at h
  injection h with hv hs
  subst hs
  exact ⟨rfl, rfl, rfl, Nat.le_add_right _ _⟩

theorem rest_str_st (s : Parser) (hInv : Inv s) (hp : s.ptr ≤ s.next - 1) :
    StOk false s (Parser.rest_str s) := by
  obtain ⟨hn1, hn2⟩ := hInv
  simp only [Parser.rest_str, Parser.endrecM, subB, sliceB, errM]
  split_ifs with h1 h2
  · exact ⟨rfl, rfl, rfl, hp⟩
  · exact ⟨rfl, rfl, rfl⟩
  · exact h1 ⟨hp, by omega⟩

theorem next_index_st (s : Parser) (hInv : Inv s) :
    StOk true s (Parser.next_index s) := by
  unfold Parser.next_index
  refine StOk.bind true false
    (next_uint_st1 1 s hInv (by omega)) ?_
  intro a s₁ hms
  have hInv₁ : Inv s₁ := Inv.of_ok (next_uint_st 1 s hInv) hms hInv
  by_cases hc : a < 0x80
  · rw [if_pos hc]
    exact StOk_pure a s₁
  · rw [if_neg hc]
    exact StOk.bind false false (next_uint_st 1 s₁ hInv₁)
      (fun b s₂ _ => StOk_pure _ s₂)

theorem next_opt_index_st (s : Parser) (hInv : Inv s) :
    StOk true s (Parser.next_opt_index s) := by
  unfold Parser.next_opt_index
  refine StOk.bind true false (next_index_st s hInv) ?_
  intro a s₁ _
  cases a with
  | zero => exact StOk_pure _ s₁
  | succ n => exact StOk_pure _ s₁

theorem comlength_st (s : Parser) (hInv : Inv s) :
    StOk true s (Parser.comlength s) := by
  unfold Parser.comlength
  refine StOk.bind true false
    (next_uint_st1 1 s hInv (by omega)) ?_
  intro a s₁ hms
  have hInv₁ : Inv s₁ := Inv.of_ok (next_uint_st 1 s hInv) hms hInv
  by_cases hc : a ≤ 0x80
  · rw [if_pos hc]
    exact StOk_pure a s₁
  · rw [if_neg hc]
    split
    · exact next_uint_st 2 s₁ hInv₁
    · exact next_uint_st 3 s₁ hInv₁
    · exact next_uint_st 4 s₁ hInv₁
    · exact StOk_errM false _ s₁

/-! ### Sub-decoder lemmas: every decoder is fault-free and leaves the frame
fields (`obj`, `start`, `next`) untouched -/

theorem lnamesLoop_st (fuel : Nat) :
    ∀ (acc : List (List Nat)) (s : Parser), Inv s → s.next - s.ptr < fuel →
      StOk false s (Parser.lnamesLoop fuel acc s) := by
  induction fuel with
  | zero => intro acc s _ hf; exact absurd hf (Nat.not_lt_zero _)
  | succ n ih =>
    intro acc s hInv hf
    obtain ⟨hi1, hi2⟩ := id hInv
    simp only [Parser.lnamesLoop]
    rw [if_neg (by omega : ¬ s.next < 1)]
    by_cases hc : s.ptr < s.next - 1
    · rw [if_pos hc]
      have hst := next_str_st s hInv
      cases hns : Parser.next_str s with
      | ok nm s' =>
        obtain ⟨h1, h2, h3, h4⟩ := hst.ok_elim hns
        have h4' : s.ptr < s'.ptr := h4
        refine StOk.trans_frame h1 h2 h3 (Nat.le_of_lt h4') ?_
        exact ih (acc ++ [nm]) s' (Inv.trans h1 h3 hInv) (by omega)
      | err e s' =>
        obtain ⟨h1, h2, h3⟩ := hst.err_elim hns
        exact ⟨h1, h2, h3⟩
      | fault => rw [hns] at hst; exact hst.elim
    · rw [if_neg hc]
      exact ⟨rfl, rfl, rfl, Nat.le_refl _⟩

theorem lnames_st (s : Parser) (hInv : Inv s) :
    StOk false s (Parser.lnames s) := by
  obtain ⟨hi1, hi2⟩ := id hInv
  unfold Parser.lnames
  refine StOk.bind false false (StOk_getS s) ?_
  intro a s₁ hg
  injection hg with ha hs₁
  subst ha
  subst hs₁
  refine StOk.bind false false
    (lnamesLoop_st (s.obj.length + 1) [] s hInv (by omega)) ?_
  intro names s₂ _
  exact StOk_pure _ s₂

theorem make_externsBody_st (s : Parser) (hInv : Inv s) :
    StOk true s (Parser.make_externsBody s) := by
  unfold Parser.make_externsBody
  refine StOk.bind true false (next_str_st s hInv) ?_
  intro a s₁ h1
  have hInv₁ : Inv s₁ := Inv.of_ok (next_str_st s hInv) h1 hInv
  exact StOk.bind false false (next_index_st s₁ hInv₁).weaken
    (fun b s₂ _ => StOk_pure _ s₂)

theorem make_externsLoop_st (fuel : Nat) :
    ∀ (acc : List Extern) (s : Parser), Inv s → s.next - s.ptr < fuel →
      StOk false s (Parser.make_externsLoop fuel acc s) := by
  induction fuel with
  | zero => intro acc s _ hf; exact absurd hf (Nat.not_lt_zero _)
  | succ n ih =>
    intro acc s hInv hf
    obtain ⟨hi1, hi2⟩ := id hInv
    simp only [Parser.make_externsLoop]
    rw [if_neg (by omega : ¬ s.next < 1)]
    by_cases hc : s.ptr < s.next - 1
    · rw [if_pos hc]
      have hst := make_externsBody_st s hInv
      cases hns : Parser.make_externsBody s with
      | ok x s' =>
        obtain ⟨h1, h2, h3, h4⟩ := hst.ok_elim hns
        have h4' : s.ptr < s'.ptr := h4
        refine StOk.trans_frame h1 h2 h3 (Nat.le_of_lt h4') ?_
        exact ih (acc ++ [x]) s' (Inv.trans h1 h3 hInv) (by omega)
      | err e s' =>
        obtain ⟨h1, h2, h3⟩ := hst.err_elim hns
        exact ⟨h1, h2, h3⟩
      | fault => rw [hns] at hst; exact hst.elim
    · rw [if_neg hc]
      exact ⟨rfl, rfl, rfl, Nat.le_refl _⟩

theorem make_externs_st (rec : List Extern → Record) (s : Parser)
    (hInv : Inv s) : StOk false s (Parser.make_externs rec s) := by
  obtain ⟨hi1, hi2⟩ := id hInv
  unfold Parser.make_externs
  refine StOk.bind false false (StOk_getS s) ?_
  intro a s₁ hg
  injection hg with ha hs₁
  subst ha
  subst hs₁
  refine StOk.bind false false
    (make_externsLoop_st (s.obj.length + 1) [] s hInv (by omega)) ?_
  intro externs s₂ _
  exact StOk_pure _ s₂

theorem extdef_st (s : Parser) (hInv : Inv s) :
    StOk false s (Parser.extdef s) :=
  make_externs_st _ s hInv

theorem lextdef_st (s : Parser) (hInv : Inv s) :
    StOk false s (Parser.lextdef s) :=
  make_externs_st _ s hInv

theorem aliasBody_st (s : Parser) (hInv : Inv s) :
    StOk true s (Parser.aliasBody s) := by
  unfold Parser.aliasBody
  refine StOk.bind true false (next_str_st s hInv) ?_
  intro a s₁ h1
  have hInv₁ : Inv s₁ := Inv.of_ok (next_str_st s hInv) h1 hInv
  exact StOk.bind false false (next_str_st s₁ hInv₁).weaken
    (fun b s₂ _ => StOk_pure _ s₂)

theorem aliasLoop_st (fuel : Nat) :
    ∀ (acc : List Alias) (s : Parser), Inv s → s.next - s.ptr < fuel →
      StOk false s (Parser.aliasLoop fuel acc s) := by
  induction fuel with
  | zero => intro acc s _ hf; exact absurd hf (Nat.not_lt_zero _)
  | succ n ih =>
    intro acc s hInv hf
    obtain ⟨hi1, hi2⟩ := id hInv
    simp only [Parser.aliasLoop]
    rw [if_neg (by omega : ¬ s.next < 1)]
    by_cases hc : s.ptr < s.next - 1
    · rw [if_pos hc]
      have hst := aliasBody_st s hInv
      cases hns : Parser.aliasBody s with
      | ok x s' =>
        obtain ⟨h1, h2, h3, h4⟩ := hst.ok_elim hns
        have h4' : s.ptr < s'.ptr := h4
        refine StOk.trans_frame h1 h2 h3 (Nat.le_of_lt h4') ?_
        exact ih (acc ++ [x]) s' (Inv.trans h1 h3 hInv) (by omega)
      | err e s' =>
        obtain ⟨h1, h2, h3⟩ := hst.err_elim hns
        exact ⟨h1, h2, h3⟩
      | fault => rw [hns] at hst; exact hst.elim
    · rw [if_neg hc]
      exact ⟨rfl, rfl, rfl, Nat.le_refl _⟩

theorem aliasRec_st (s : Parser) (hInv : Inv s) :
    StOk false s (Parser.aliasRec s) := by
  obtain ⟨hi1, hi2⟩ := id hInv
  unfold Parser.aliasRec
  refine StOk.bind false false (StOk_getS s) ?_
  intro a s₁ hg
  injection hg with ha hs₁
  subst ha
  subst hs₁
  refine StOk.bind false false
    (aliasLoop_st (s.obj.length + 1) [] s hInv (by omega)) ?_
  intro aliases s₂ _
  exact StOk_pure _ s₂

theorem cextdefBody_st (s : Parser) (hInv : Inv s) :
    StOk true s (Parser.cextdefBody s) := by
  unfold Parser.cextdefBody
  refine StOk.bind true false (next_index_st s hInv) ?_
  intro a s₁ h1
  have hInv₁ : Inv s₁ := Inv.of_ok (next_index_st s hInv) h1 hInv
  exact StOk.bind false false (next_index_st s₁ hInv₁).weaken
    (fun b s₂ _ => StOk_pure _ s₂)

theorem cextdefLoop_st (fuel : Nat) :
    ∀ (acc : List CExtern) (s : Parser), Inv s → s.next - s.ptr < fuel →
      StOk false s (Parser.cextdefLoop fuel acc s) := by
  induction fuel with
  | zero => intro acc s _ hf; exact absurd hf (Nat.not_lt_zero _)
  | succ n ih =>
    intro acc s hInv hf
    obtain ⟨hi1, hi2⟩ := id hInv
    simp only [Parser.cextdefLoop]
    rw [if_neg (by omega : ¬ s.next < 1)]
    by_cases hc : s.ptr < s.next - 1
    · rw [if_pos hc]
      have hst := cextdefBody_st s hInv
      cases hns : Parser.cextdefBody s with
      | ok x s' =>
        obtain ⟨h1, h2, h3, h4⟩ := hst.ok_elim hns
        have h4' : s.ptr < s'.ptr := h4
        refine StOk.trans_frame h1 h2 h3 (Nat.le_of_lt h4') ?_
        exact ih (acc ++ [x]) s' (Inv.trans h1 h3 hInv) (by omega)
      | err e s' =>
        obtain ⟨h1, h2, h3⟩ := hst.err_elim hns
        exact ⟨h1, h2, h3⟩
      | fault => rw [hns] at hst; exact hst.elim
    · rw [if_neg hc]
      exact ⟨rfl, rfl, rfl, Nat.le_refl _⟩

theorem cextdef_st (s : Parser) (hInv : Inv s) :
    StOk false s (Parser.cextdef s) := by
  obtain ⟨hi1, hi2⟩ := id hInv
  unfold Parser.cextdef
  refine StOk.bind false false (StOk_getS s) ?_
  intro a s₁ hg
  injection hg with ha hs₁
  subst ha
  subst hs₁
  refine StOk.bind false false
    (cextdefLoop_st (s.obj.length + 1) [] s hInv (by omega)) ?_
  intro externs s₂ _
  exact StOk_pure _ s₂

theorem coment_weak_externBody_st (s : Parser) (hInv : Inv s) :
    StOk true s (Parser.coment_weak_externBody s) := by
  unfold Parser.coment_weak_externBody
  refine StOk.bind true false (next_index_st s hInv) ?_
  intro a s₁ h1
  have hInv₁ : Inv s₁ := Inv.of_ok (next_index_st s hInv) h1 hInv
  exact StOk.bind false false (next_index_st s₁ hInv₁).weaken
    (fun b s₂ _ => StOk_pure _ s₂)

theorem coment_weak_externLoop_st (fuel : Nat) :
    ∀ (acc : List WeakExtern) (s : Parser), Inv s → s.next - s.ptr < fuel →
      StOk false s (Parser.coment_weak_externLoop fuel acc s) := by
  induction fuel with
  | zero => intro acc s _ hf; exact absurd hf (Nat.not_lt_zero _)
  | succ n ih =>
    intro acc s hInv hf
    obtain ⟨hi1, hi2⟩ := id hInv
    simp only [Parser.coment_weak_externLoop]
    rw [if_neg (by omega : ¬ s.next < 1)]
    by_cases hc : s.ptr < s.next - 1
    · rw [if_pos hc]
      have hst := coment_weak_externBody_st s hInv
      cases hns : Parser.coment_weak_externBody s with
      | ok x s' =>
        obtain ⟨h1, h2, h3, h4⟩ := hst.ok_elim hns
        have h4' : s.ptr < s'.ptr := h4
        refine StOk.trans_frame h1 h2 h3 (Nat.le_of_lt h4') ?_
        exact ih (acc ++ [x]) s' (Inv.trans h1 h3 hInv) (by omega)
      | err e s' =>
        obtain ⟨h1, h2, h3⟩ := hst.err_elim hns
        exact ⟨h1, h2, h3⟩
      | fault => rw [hns] at hst; exact hst.elim
    · rw [if_neg hc]
      exact ⟨rfl, rfl, rfl, Nat.le_refl _⟩

theorem coment_weak_extern_st (header : ComentHeader) (s : Parser)
    (hInv : Inv s) : StOk false s (Parser.coment_weak_extern header s) := by
  obtain ⟨hi1, hi2⟩ := id hInv
  unfold Parser.coment_weak_extern
  refine StOk.bind false false (StOk_getS s) ?_
  intro a s₁ hg
  injection hg with ha hs₁
  subst ha
  subst hs₁
  refine StOk.bind false false
    (coment_weak_externLoop_st (s.obj.length + 1) [] s hInv (by omega)) ?_
  intro externs s₂ _
  exact StOk_pure _ s₂

theorem next_uint_ok_ptr {n v : Nat} {s s' : Parser}
    (h : Parser.next_uint n s = .ok v s') :
    s'.ptr + 1 ≤ s'.next := by
  obtain ⟨hs, _, h3⟩ := next_uint_ok h
  subst hs
  exact h3

theorem grpdefBody_st (s : Parser) (hInv : Inv s) :
    StOk true s (Parser.grpdefBody s) := by
  unfold Parser.grpdefBody
  refine StOk.bind true false
    (next_uint_st1 1 s hInv (by omega)) ?_
  intro a s₁ h1
  have hInv₁ : Inv s₁ := Inv.of_ok (next_uint_st 1 s hInv) h1 hInv
  refine StOk.bind false false
    (next_index_st s₁ hInv₁).weaken ?_
  intro b s₂ h2
  split
  · exact StOk_errM false _ s₂
  · exact StOk_pure _ s₂

theorem grpdefLoop_st (fuel : Nat) :
    ∀ (acc : List Nat) (s : Parser), Inv s → s.next - s.ptr < fuel →
      StOk false s (Parser.grpdefLoop fuel acc s) := by
  induction fuel with
  | zero => intro acc s _ hf; exact absurd hf (Nat.not_lt_zero _)
  | succ n ih =>
    intro acc s hInv hf
    obtain ⟨hi1, hi2⟩ := id hInv
    simp only [Parser.grpdefLoop]
    rw [if_neg (by omega : ¬ s.next < 1)]
    by_cases hc : s.ptr < s.next - 1
    · rw [if_pos hc]
      have hst := grpdefBody_st s hInv
      cases hns : Parser.grpdefBody s with
      | ok x s' =>
        obtain ⟨h1, h2, h3, h4⟩ := hst.ok_elim hns
        have h4' : s.ptr < s'.ptr := h4
        refine StOk.trans_frame h1 h2 h3 (Nat.le_of_lt h4') ?_
        exact ih (acc ++ [x]) s' (Inv.trans h1 h3 hInv) (by omega)
      | err e s' =>
        obtain ⟨h1, h2, h3⟩ := hst.err_elim hns
        exact ⟨h1, h2, h3⟩
      | fault => rw [hns] at hst; exact hst.elim
    · rw [if_neg hc]
      exact ⟨rfl, rfl, rfl, Nat.le_refl _⟩

theorem grpdef_st (s : Parser) (hInv : Inv s) :
    StOk false s (Parser.grpdef s) := by
  unfold Parser.grpdef
  refine StOk.bind false false
    (next_index_st s hInv).weaken ?_
  intro name s₁ h1
  have hInv₁ : Inv s₁ := Inv.of_ok (next_index_st s hInv) h1 hInv
  obtain ⟨hi1, hi2⟩ := id hInv₁
  refine StOk.bind false false (StOk_getS s₁) ?_
  intro a s₂ hg
  injection hg with ha hs₂
  subst ha
  subst hs₂
  refine StOk.bind false false
    (grpdefLoop_st (s₁.obj.length + 1) [] s₁ hInv₁ (by omega)) ?_
  intro segs s₃ _
  exact StOk_pure _ s₃

theorem pubdefBody_st (is32 : Bool) (s : Parser) (hInv : Inv s) :
    StOk true s (Parser.pubdefBody is32 s) := by
  unfold Parser.pubdefBody
  refine StOk.bind true false (next_str_st s hInv) ?_
  intro a s₁ h1
  have hInv₁ : Inv s₁ := Inv.of_ok (next_str_st s hInv) h1 hInv
  refine StOk.bind false false
    (next_uint_st _ s₁ hInv₁) ?_
  intro b s₂ h2
  have hInv₂ : Inv s₂ := Inv.of_ok (next_uint_st _ s₁ hInv₁) h2 hInv₁
  exact StOk.bind false false (next_index_st s₂ hInv₂).weaken
    (fun c s₃ _ => StOk_pure _ s₃)

theorem pubdefLoop_st (is32 : Bool) (fuel : Nat) :
    ∀ (acc : List Public) (s : Parser), Inv s → s.next - s.ptr < fuel →
      StOk false s (Parser.pubdefLoop is32 fuel acc s) := by
  induction fuel with
  | zero => intro acc s _ hf; exact absurd hf (Nat.not_lt_zero _)
  | succ n ih =>
    intro acc s hInv hf
    obtain ⟨hi1, hi2⟩ := id hInv
    simp only [Parser.pubdefLoop]
    rw [if_neg (by omega : ¬ s.next < 1)]
    by_cases hc : s.ptr < s.next - 1
    · rw [if_pos hc]
      have hst := pubdefBody_st is32 s hInv
      cases hns : Parser.pubdefBody is32 s with
      | ok x s' =>
        obtain ⟨h1, h2, h3, h4⟩ := hst.ok_elim hns
        have h4' : s.ptr < s'.ptr := h4
        refine StOk.trans_frame h1 h2 h3 (Nat.le_of_lt h4') ?_
        exact ih (acc ++ [x]) s' (Inv.trans h1 h3 hInv) (by omega)
      | err e s' =>
        obtain ⟨h1, h2, h3⟩ := hst.err_elim hns
        exact ⟨h1, h2, h3⟩
      | fault => rw [hns] at hst; exact hst.elim
    · rw [if_neg hc]
      exact ⟨rfl, rfl, rfl, Nat.le_refl _⟩

theorem pubdef_st (is32 : Bool) (s : Parser) (hInv : Inv s) :
    StOk false s (Parser.pubdef is32 s) := by
  unfold Parser.pubdef
  refine StOk.bind false false
    (next_opt_index_st s hInv).weaken ?_
  intro g s₁ h1
  have hInv₁ : Inv s₁ := Inv.of_ok (next_opt_index_st s hInv) h1 hInv
  refine StOk.bind false false
    (next_opt_index_st s₁ hInv₁).weaken ?_
  intro sg s₂ h2
  have hInv₂ : Inv s₂ := Inv.of_ok (next_opt_index_st s₁ hInv₁) h2 hInv₁
  split
  · refine StOk.bind false false
      (next_uint_st 2 s₂ hInv₂) ?_
    intro v s₃ h3
    have hInv₃ : Inv s₃ := Inv.of_ok (next_uint_st 2 s₂ hInv₂) h3 hInv₂
    obtain ⟨hi1, hi2⟩ := id hInv₃
    refine StOk.bind false false (StOk_pure _ s₃) ?_
    intro y s₄ hy
    injection hy with hy1 hy2
    subst hy1
    subst hy2
    refine StOk.bind false false (StOk_getS s₃) ?_
    intro a s₄ hg
    injection hg with ha hs₄
    subst ha
    subst hs₄
    refine StOk.bind false false
      (pubdefLoop_st is32 (s₃.obj.length + 1) [] s₃ hInv₃ (by omega)) ?_
    intro pubs s₅ _
    exact StOk_pure _ s₅
  · obtain ⟨hi1, hi2⟩ := id hInv₂
    refine StOk.bind false false (StOk_pure _ s₂) ?_
    intro y s₃ hy
    injection hy with hy1 hy2
    subst hy1
    subst hy2
    refine StOk.bind false false (StOk_getS s₂) ?_
    intro a s₄ hg
    injection hg with ha hs₄
    subst ha
    subst hs₄
    refine StOk.bind false false
      (pubdefLoop_st is32 (s₂.obj.length + 1) [] s₂ hInv₂ (by omega)) ?_
    intro pubs s₅ _
    exact StOk_pure _ s₅

theorem lpubdef_st (is32 : Bool) (s : Parser) (hInv : Inv s) :
    StOk false s (Parser.lpubdef is32 s) := by
  unfold Parser.lpubdef
  refine StOk.bind false false
    (next_opt_index_st s hInv).weaken ?_
  intro g s₁ h1
  have hInv₁ : Inv s₁ := Inv.of_ok (next_opt_index_st s hInv) h1 hInv
  refine StOk.bind false false
    (next_opt_index_st s₁ hInv₁).weaken ?_
  intro sg s₂ h2
  have hInv₂ : Inv s₂ := Inv.of_ok (next_opt_index_st s₁ hInv₁) h2 hInv₁
  split
  · refine StOk.bind false false
      (next_uint_st 2 s₂ hInv₂) ?_
    intro v s₃ h3
    have hInv₃ : Inv s₃ := Inv.of_ok (next_uint_st 2 s₂ hInv₂) h3 hInv₂
    obtain ⟨hi1, hi2⟩ := id hInv₃
    refine StOk.bind false false (StOk_pure _ s₃) ?_
    intro y s₄ hy
    injection hy with hy1 hy2
    subst hy1
    subst hy2
    refine StOk.bind false false (StOk_getS s₃) ?_
    intro a s₄ hg
    injection hg with ha hs₄
    subst ha
    subst hs₄
    refine StOk.bind false false
      (pubdefLoop_st is32 (s₃.obj.length + 1) [] s₃ hInv₃ (by omega)) ?_
    intro pubs s₅ _
    exact StOk_pure _ s₅
  · obtain ⟨hi1, hi2⟩ := id hInv₂
    refine StOk.bind false false (StOk_pure _ s₂) ?_
    intro y s₃ hy
    injection hy with hy1 hy2
    subst hy1
    subst hy2
    refine StOk.bind false false (StOk_getS s₂) ?_
    intro a s₄ hg
    injection hg with ha hs₄
    subst ha
    subst hs₄
    refine StOk.bind false false
      (pubdefLoop_st is32 (s₂.obj.length + 1) [] s₂ hInv₂ (by omega)) ?_
    intro pubs s₅ _
    exact StOk_pure _ s₅

theorem bakpatBody_st (is32 : Bool) (s : Parser) (hInv : Inv s) :
    StOk true s (Parser.bakpatBody is32 s) := by
  unfold Parser.bakpatBody
  refine StOk.bind true false
    (next_uint_st1 _ s hInv (by cases is32 <;> simp)) ?_
  intro a s₁ h1
  have hInv₁ : Inv s₁ := Inv.of_ok (next_uint_st _ s hInv) h1 hInv
  exact StOk.bind false false (next_uint_st _ s₁ hInv₁)
    (fun b s₂ _ => StOk_pure _ s₂)

theorem bakpatLoop_st (is32 : Bool) (fuel : Nat) :
    ∀ (acc : List BakpatFixup) (s : Parser), Inv s → s.next - s.ptr < fuel →
      StOk false s (Parser.bakpatLoop is32 fuel acc s) := by
  induction fuel with
  | zero => intro acc s _ hf; exact absurd hf (Nat.not_lt_zero _)
  | succ n ih =>
    intro acc s hInv hf
    obtain ⟨hi1, hi2⟩ := id hInv
    simp only [Parser.bakpatLoop]
    rw [if_neg (by omega : ¬ s.next < 1)]
    by_cases hc : s.ptr < s.next - 1
    · rw [if_pos hc]
      have hst := bakpatBody_st is32 s hInv
      cases hns : Parser.bakpatBody is32 s with
      | ok x s' =>
        obtain ⟨h1, h2, h3, h4⟩ := hst.ok_elim hns
        have h4' : s.ptr < s'.ptr := h4
        refine StOk.trans_frame h1 h2 h3 (Nat.le_of_lt h4') ?_
        exact ih (acc ++ [x]) s' (Inv.trans h1 h3 hInv) (by omega)
      | err e s' =>
        obtain ⟨h1, h2, h3⟩ := hst.err_elim hns
        exact ⟨h1, h2, h3⟩
      | fault => rw [hns] at hst; exact hst.elim
    · rw [if_neg hc]
      exact ⟨rfl, rfl, rfl, Nat.le_refl _⟩

theorem bakpat_st (is32 : Bool) (s : Parser) (hInv : Inv s) :
    StOk false s (Parser.bakpat is32 s) := by
  unfold Parser.bakpat
  refine StOk.bind false false
    (next_index_st s hInv).weaken ?_
  intro seg s₁ h1
  have hInv₁ : Inv s₁ := Inv.of_ok (next_index_st s hInv) h1 hInv
  refine StOk.bind false false
    (next_uint_st 1 s₁ hInv₁) ?_
  intro l s₂ h2
  have hInv₂ : Inv s₂ := Inv.of_ok (next_uint_st 1 s₁ hInv₁) h2 hInv₁
  refine StOk.bind false false (StOk_liftE _ s₂) ?_
  intro loc s₃ h3
  have hInv₃ : Inv s₃ := Inv.of_ok (StOk_liftE _ s₂) h3 hInv₂
  obtain ⟨hi1, hi2⟩ := id hInv₃
  refine StOk.bind false false (StOk_getS s₃) ?_
  intro a s₄ hg
  injection hg with ha hs₄
  subst ha
  subst hs₄
  refine StOk.bind false false
    (bakpatLoop_st is32 (s₃.obj.length + 1) [] s₃ hInv₃ (by omega)) ?_
  intro fixups s₅ _
  exact StOk_pure _ s₅

theorem comdefBody_st (s : Parser) (hInv : Inv s) :
    StOk true s (Parser.comdefBody s) := by
  unfold Parser.comdefBody
  refine StOk.bind true false (next_str_st s hInv) ?_
  intro a s₁ h1
  have hInv₁ : Inv s₁ := Inv.of_ok (next_str_st s hInv) h1 hInv
  refine StOk.bind false false
    (next_index_st s₁ hInv₁).weaken ?_
  intro b s₂ h2
  have hInv₂ : Inv s₂ := Inv.of_ok (next_index_st s₁ hInv₁) h2 hInv₁
  refine StOk.bind false false
    (next_uint_st 1 s₂ hInv₂) ?_
  intro d s₃ h3
  have hInv₃ : Inv s₃ := Inv.of_ok (next_uint_st 1 s₂ hInv₂) h3 hInv₂
  refine StOk.bind false false
    (comlength_st s₃ hInv₃).weaken ?_
  intro l s₄ h4
  have hInv₄ : Inv s₄ := Inv.of_ok (comlength_st s₃ hInv₃) h4 hInv₃
  split
  · refine StOk.bind false false
      (comlength_st s₄ hInv₄).weaken ?_
    intro l2 s₅ h5
    refine StOk.bind false false (StOk_pure _ s₅) ?_
    intro y s₆ hy
    injection hy with hy1 hy2
    subst hy1
    subst hy2
    exact StOk_pure _ s₅
  · refine StOk.bind false false (StOk_pure _ s₄) ?_
    intro y s₅ hy
    injection hy with hy1 hy2
    subst hy1
    subst hy2
    exact StOk_pure _ s₄

theorem comdefLoop_st (fuel : Nat) :
    ∀ (acc : List Comdef) (s : Parser), Inv s → s.next - s.ptr < fuel →
      StOk false s (Parser.comdefLoop fuel acc s) := by
  induction fuel with
  | zero => intro acc s _ hf; exact absurd hf (Nat.not_lt_zero _)
  | succ n ih =>
    intro acc s hInv hf
    obtain ⟨hi1, hi2⟩ := id hInv
    simp only [Parser.comdefLoop]
    rw [if_neg (by omega : ¬ s.next < 1)]
    by_cases hc : s.ptr < s.next - 1
    · rw [if_pos hc]
      have hst := comdefBody_st s hInv
      cases hns : Parser.comdefBody s with
      | ok x s' =>
        obtain ⟨h1, h2, h3, h4⟩ := hst.ok_elim hns
        have h4' : s.ptr < s'.ptr := h4
        refine StOk.trans_frame h1 h2 h3 (Nat.le_of_lt h4') ?_
        exact ih (acc ++ [x]) s' (Inv.trans h1 h3 hInv) (by omega)
      | err e s' =>
        obtain ⟨h1, h2, h3⟩ := hst.err_elim hns
        exact ⟨h1, h2, h3⟩
      | fault => rw [hns] at hst; exact hst.elim
    · rw [if_neg hc]
      exact ⟨rfl, rfl, rfl, Nat.le_refl _⟩

theorem comdef_st (s : Parser) (hInv : Inv s) :
    StOk false s (Parser.comdef s) := by
  obtain ⟨hi1, hi2⟩ := id hInv
  unfold Parser.comdef
  refine StOk.bind false false (StOk_getS s) ?_
  intro a s₁ hg
  injection hg with ha hs₁
  subst ha
  subst hs₁
  refine StOk.bind false false
    (comdefLoop_st (s.obj.length + 1) [] s hInv (by omega)) ?_
  intro commons s₂ _
  exact StOk_pure _ s₂

theorem ledata_st (is32 : Bool) (s : Parser) (hInv : Inv s) :
    StOk false s (Parser.ledata is32 s) := by
  unfold Parser.ledata
  refine StOk.bind false false
    (next_index_st s hInv).weaken ?_
  intro seg s₁ h1
  have hInv₁ : Inv s₁ := Inv.of_ok (next_index_st s hInv) h1 hInv
  refine StOk.bind false false
    (next_uint_st _ s₁ hInv₁) ?_
  intro offset s₂ h2
  have hInv₂ : Inv s₂ := Inv.of_ok (next_uint_st _ s₁ hInv₁) h2 hInv₁
  have hptr : s₂.ptr + 1 ≤ s₂.next := next_uint_ok_ptr h2
  obtain ⟨hi1, hi2⟩ := id hInv₂
  simp only [Parser.endrecM, subB, sliceB]
  split_ifs with h3
  · exact ⟨rfl, rfl, rfl, Nat.le_refl _⟩
  · exact h3 ⟨by omega, by omega⟩

theorem modendFrameDatum_st (f_thread : Bool) (f_method : FrameMethod)
    (s : Parser) (hInv : Inv s) :
    StOk false s (Parser.modendFrameDatum f_thread f_method s) := by
  unfold Parser.modendFrameDatum
  split
  · exact StOk_pure _ s
  · exact (next_opt_index_st s hInv).weaken

theorem modendTargetDatum_st (t_thread : Bool) (s : Parser) (hInv : Inv s) :
    StOk false s (Parser.modendTargetDatum t_thread s) := by
  unfold Parser.modendTargetDatum
  split
  · exact StOk_pure _ s
  · exact (next_opt_index_st s hInv).weaken

theorem modendTargetDisp_st (p_displ : Bool) (bytes : Nat) (s : Parser)
    (hInv : Inv s) :
    StOk false s (Parser.modendTargetDisp p_displ bytes s) := by
  unfold Parser.modendTargetDisp
  split
  · exact StOk.bind false false (next_uint_st _ s hInv)
      (fun v s₁ _ => StOk_pure _ s₁)
  · exact StOk_pure _ s

theorem modend_st (is32 : Bool) (s : Parser) (hInv : Inv s) :
    StOk false s (Parser.modend is32 s) := by
  unfold Parser.modend
  refine StOk.bind false false
    (next_uint_st 1 s hInv) ?_
  intro a s₁ h1
  have hInv₁ : Inv s₁ := Inv.of_ok (next_uint_st 1 s hInv) h1 hInv
  split
  · refine StOk.bind false false (StOk_pure _ s₁) ?_
    intro y s₂ hy
    injection hy with hy1 hy2
    subst hy1
    subst hy2
    exact StOk_pure _ s₁
  · refine StOk.bind false false
      (next_uint_st 1 s₁ hInv₁) ?_
    intro fd s₂ h2
    have hInv₂ : Inv s₂ := Inv.of_ok (next_uint_st 1 s₁ hInv₁) h2 hInv₁
    refine StOk.bind false false (StOk_liftE _ s₂) ?_
    intro fm s₃ h3
    have hInv₃ : Inv s₃ := Inv.of_ok (StOk_liftE _ s₂) h3 hInv₂
    refine StOk.bind false false
      (modendFrameDatum_st _ _ s₃ hInv₃) ?_
    intro fdat s₄ h4
    have hInv₄ : Inv s₄ := Inv.of_ok (modendFrameDatum_st _ _ s₃ hInv₃) h4 hInv₃
    refine StOk.bind false false
      (modendTargetDatum_st _ s₄ hInv₄) ?_
    intro tdat s₅ h5
    have hInv₅ : Inv s₅ := Inv.of_ok (modendTargetDatum_st _ s₄ hInv₄) h5 hInv₄
    refine StOk.bind false false
      (modendTargetDisp_st _ _ s₅ hInv₅) ?_
    intro tdisp s₆ h6
    refine StOk.bind false false (StOk_pure _ s₆) ?_
    intro y s₇ hy
    injection hy with hy1 hy2
    subst hy1
    subst hy2
    exact StOk_pure _ s₆

theorem coment_translator_st (header : ComentHeader) (s : Parser)
    (hInv : Inv s) (hp : s.ptr ≤ s.next - 1) :
    StOk false s (Parser.coment_translator header s) := by
  unfold Parser.coment_translator
  exact StOk.bind false false (rest_str_st s hInv hp)
    (fun a s₁ _ => StOk_pure _ s₁)

theorem coment_new_omf_st (header : ComentHeader) (s : Parser)
    (hInv : Inv s) (hp : s.ptr ≤ s.next - 1) :
    StOk false s (Parser.coment_new_omf header s) := by
  unfold Parser.coment_new_omf
  exact StOk.bind false false (rest_str_st s hInv hp)
    (fun a s₁ _ => StOk_pure _ s₁)

theorem coment_memory_model_st (header : ComentHeader) (s : Parser)
    (hInv : Inv s) (hp : s.ptr ≤ s.next - 1) :
    StOk false s (Parser.coment_memory_model header s) := by
  unfold Parser.coment_memory_model
  exact StOk.bind false false (rest_str_st s hInv hp)
    (fun a s₁ _ => StOk_pure _ s₁)

theorem coment_default_library_st (header : ComentHeader) (s : Parser)
    (hInv : Inv s) (hp : s.ptr ≤ s.next - 1) :
    StOk false s (Parser.coment_default_library header s) := by
  unfold Parser.coment_default_library
  exact StOk.bind false false (rest_str_st s hInv hp)
    (fun a s₁ _ => StOk_pure _ s₁)

theorem coment_user_st (header : ComentHeader) (s : Parser)
    (hInv : Inv s) (hp : s.ptr ≤ s.next - 1) :
    StOk false s (Parser.coment_user header s) := by
  unfold Parser.coment_user
  exact StOk.bind false false (rest_str_st s hInv hp)
    (fun a s₁ _ => StOk_pure _ s₁)

theorem coment_libmod_st (header : ComentHeader) (s : Parser)
    (hInv : Inv s) : StOk false s (Parser.coment_libmod header s) := by
  unfold Parser.coment_libmod
  exact StOk.bind false false (next_str_st s hInv).weaken
    (fun a s₁ _ => StOk_pure _ s₁)

theorem coment_st (s : Parser) (hInv : Inv s) :
    StOk false s (Parser.coment s) := by
  unfold Parser.coment
  refine StOk.bind false false
    (next_uint_st 1 s hInv) ?_
  intro ct s₁ h1
  have hInv₁ : Inv s₁ := Inv.of_ok (next_uint_st 1 s hInv) h1 hInv
  refine StOk.bind false false
    (next_uint_st 1 s₁ hInv₁) ?_
  intro cc s₂ h2
  have hInv₂ : Inv s₂ := Inv.of_ok (next_uint_st 1 s₁ hInv₁) h2 hInv₁
  have hp₂ : s₂.ptr ≤ s₂.next - 1 := by
    have := next_uint_ok_ptr h2
    omega
  generalize cc % 256 = c
  split
  · exact coment_translator_st _ s₂ hInv₂ hp₂
  · exact coment_memory_model_st _ s₂ hInv₂ hp₂
  · exact StOk_pure _ s₂
  · exact coment_default_library_st _ s₂ hInv₂ hp₂
  · exact coment_new_omf_st _ s₂ hInv₂ hp₂
  · exact StOk_pure _ s₂
  · exact coment_libmod_st _ s₂ hInv₂
  · exact coment_weak_extern_st _ s₂ hInv₂
  · exact coment_user_st _ s₂ hInv₂ hp₂
  · exact StOk_pure _ s₂

theorem segdefAbs_st (align : Align) (s : Parser) (hInv : Inv s) :
    StOk false s (Parser.segdefAbs align s) := by
  unfold Parser.segdefAbs
  split
  · refine StOk.bind false false (next_uint_st 2 s hInv) ?_
    intro frame s₁ h1
    have hInv₁ : Inv s₁ := Inv.of_ok (next_uint_st 2 s hInv) h1 hInv
    exact StOk.bind false false (next_uint_st 1 s₁ hInv₁)
      (fun o s₂ _ => StOk_pure _ s₂)
  · exact StOk_pure _ s

theorem segdefLen_st (is32 big : Bool) (s : Parser) (hInv : Inv s) :
    StOk false s (Parser.segdefLen is32 big s) := by
  unfold Parser.segdefLen
  refine StOk.bind false false (next_uint_st _ s hInv) ?_
  intro l s₁ _
  split
  · split
    · exact StOk_errM false _ s₁
    · exact StOk_pure _ s₁
  · exact StOk_pure _ s₁

theorem segdefBody_st (is32 : Bool) (s : Parser) (hInv : Inv s) :
    StOk true s (Parser.segdefBody is32 s) := by
  unfold Parser.segdefBody
  refine StOk.bind true false
    (next_uint_st1 1 s hInv (by omega)) ?_
  intro a s₁ h1
  have hInv₁ : Inv s₁ := Inv.of_ok (next_uint_st 1 s hInv) h1 hInv
  refine StOk.bind false false (StOk_liftE _ s₁) ?_
  intro al s₂ h2
  have hInv₂ : Inv s₂ := Inv.of_ok (StOk_liftE _ s₁) h2 hInv₁
  refine StOk.bind false false (StOk_liftE _ s₂) ?_
  intro cmb s₃ h3
  have hInv₃ : Inv s₃ := Inv.of_ok (StOk_liftE _ s₂) h3 hInv₂
  refine StOk.bind false false (segdefAbs_st _ s₃ hInv₃) ?_
  intro ab s₄ h4
  have hInv₄ : Inv s₄ := Inv.of_ok (segdefAbs_st _ s₃ hInv₃) h4 hInv₃
  refine StOk.bind false false (segdefLen_st _ _ s₄ hInv₄) ?_
  intro len s₅ h5
  have hInv₅ : Inv s₅ := Inv.of_ok (segdefLen_st _ _ s₄ hInv₄) h5 hInv₄
  refine StOk.bind false false
    (next_opt_index_st s₅ hInv₅).weaken ?_
  intro c s₆ h6
  have hInv₆ : Inv s₆ := Inv.of_ok (next_opt_index_st s₅ hInv₅) h6 hInv₅
  refine StOk.bind false false
    (next_opt_index_st s₆ hInv₆).weaken ?_
  intro nm s₇ h7
  have hInv₇ : Inv s₇ := Inv.of_ok (next_opt_index_st s₆ hInv₆) h7 hInv₆
  exact StOk.bind false false
    (next_opt_index_st s₇ hInv₇).weaken
    (fun ov s₈ _ => StOk_pure _ s₈)

theorem segdefLoop_st (is32 : Bool) (fuel : Nat) :
    ∀ (acc : List Segdef) (s : Parser), Inv s → s.next - s.ptr < fuel →
      StOk false s (Parser.segdefLoop is32 fuel acc s) := by
  induction fuel with
  | zero => intro acc s _ hf; exact absurd hf (Nat.not_lt_zero _)
  | succ n ih =>
    intro acc s hInv hf
    obtain ⟨hi1, hi2⟩ := id hInv
    simp only [Parser.segdefLoop]
    rw [if_neg (by omega : ¬ s.next < 1)]
    by_cases hc : s.ptr < s.next - 1
    · rw [if_pos hc]
      have hst := segdefBody_st is32 s hInv
      cases hns : Parser.segdefBody is32 s with
      | ok x s' =>
        obtain ⟨h1, h2, h3, h4⟩ := hst.ok_elim hns
        have h4' : s.ptr < s'.ptr := h4
        refine StOk.trans_frame h1 h2 h3 (Nat.le_of_lt h4') ?_
        exact ih (acc ++ [x]) s' (Inv.trans h1 h3 hInv) (by omega)
      | err e s' =>
        obtain ⟨h1, h2, h3⟩ := hst.err_elim hns
        exact ⟨h1, h2, h3⟩
      | fault => rw [hns] at hst; exact hst.elim
    · rw [if_neg hc]
      exact ⟨rfl, rfl, rfl, Nat.le_refl _⟩

theorem segdef_st (is32 : Bool) (s : Parser) (hInv : Inv s) :
    StOk false s (Parser.segdef is32 s) := by
  obtain ⟨hi1, hi2⟩ := id hInv
  unfold Parser.segdef
  refine StOk.bind false false (StOk_getS s) ?_
  intro a s₁ hg
  injection hg with ha hs₁
  subst ha
  subst hs₁
  refine StOk.bind false false
    (segdefLoop_st is32 (s.obj.length + 1) [] s hInv (by omega)) ?_
  intro segs s₂ _
  exact StOk_pure _ s₂

theorem fixupThreadIndex_st (method : FrameMethod) (s : Parser)
    (hInv : Inv s) : StOk false s (Parser.fixupThreadIndex method s) := by
  unfold Parser.fixupThreadIndex
  split
  · exact StOk.bind false false (next_index_st s hInv).weaken
      (fun i s₁ _ => StOk_pure _ s₁)
  · exact StOk_pure _ s

theorem fixupFrameMethod_st (b : Bool) (fixdata : Nat) (s : Parser)
    (_hInv : Inv s) : StOk false s (Parser.fixupFrameMethod b fixdata s) := by
  unfold Parser.fixupFrameMethod
  split
  · exact StOk_pure _ s
  · exact StOk.bind false false (StOk_liftE _ s)
      (fun m s₁ _ => StOk_pure _ s₁)

theorem fixupTargetMethod_st (b : Bool) (fixdata : Nat) (s : Parser)
    (_hInv : Inv s) : StOk false s (Parser.fixupTargetMethod b fixdata s) := by
  unfold Parser.fixupTargetMethod
  split
  · exact StOk_pure _ s
  · exact StOk.bind false false (StOk_liftE _ s)
      (fun m s₁ _ => StOk_pure _ s₁)

theorem fixupFrameDatum_st (fm : Option FrameMethod) (s : Parser)
    (hInv : Inv s) : StOk false s (Parser.fixupFrameDatum fm s) := by
  unfold Parser.fixupFrameDatum
  split
  · split
    · exact StOk.bind false false (next_index_st s hInv).weaken
        (fun i s₁ _ => StOk_pure _ s₁)
    · exact StOk_pure _ s
  · exact StOk_pure _ s

theorem fixupTargetDatum_st (tm : Option TargetMethod) (s : Parser)
    (hInv : Inv s) : StOk false s (Parser.fixupTargetDatum tm s) := by
  unfold Parser.fixupTargetDatum
  split
  · exact StOk_pure _ s
  · exact StOk.bind false false (next_index_st s hInv).weaken
      (fun i s₁ _ => StOk_pure _ s₁)

theorem fixupTargetDisp_st (is32 : Bool) (fixdata : Nat) (s : Parser)
    (hInv : Inv s) : StOk false s (Parser.fixupTargetDisp is32 fixdata s) := by
  unfold Parser.fixupTargetDisp
  split
  · exact StOk_pure _ s
  · exact StOk.bind false false (next_uint_st _ s hInv)
      (fun v s₁ _ => StOk_pure _ s₁)

theorem fixuppBody_st (is32 : Bool) (s : Parser) (hInv : Inv s) :
    StOk true s (Parser.fixuppBody is32 s) := by
  unfold Parser.fixuppBody
  refine StOk.bind true false
    (next_uint_st1 1 s hInv (by omega)) ?_
  intro l s₁ h1
  have hInv₁ : Inv s₁ := Inv.of_ok (next_uint_st 1 s hInv) h1 hInv
  split
  · split
    · refine StOk.bind false false (StOk_liftE _ s₁) ?_
      intro m s₂ h2
      have hInv₂ : Inv s₂ := Inv.of_ok (StOk_liftE _ s₁) h2 hInv₁
      exact StOk.bind false false
        (next_index_st s₂ hInv₂).weaken
        (fun i s₃ _ => StOk_pure _ s₃)
    · refine StOk.bind false false (StOk_liftE _ s₁) ?_
      intro m s₂ h2
      have hInv₂ : Inv s₂ := Inv.of_ok (StOk_liftE _ s₁) h2 hInv₁
      exact StOk.bind false false
        (fixupThreadIndex_st m s₂ hInv₂)
        (fun i s₃ _ => StOk_pure _ s₃)
  · refine StOk.bind false false (StOk_liftE _ s₁) ?_
    intro loc s₂ h2
    have hInv₂ : Inv s₂ := Inv.of_ok (StOk_liftE _ s₁) h2 hInv₁
    refine StOk.bind false false
      (next_uint_st 1 s₂ hInv₂) ?_
    intro low s₃ h3
    have hInv₃ : Inv s₃ := Inv.of_ok (next_uint_st 1 s₂ hInv₂) h3 hInv₂
    refine StOk.bind false false
      (next_uint_st 1 s₃ hInv₃) ?_
    intro fixdata s₄ h4
    have hInv₄ : Inv s₄ := Inv.of_ok (next_uint_st 1 s₃ hInv₃) h4 hInv₃
    refine StOk.bind false false
      (fixupFrameMethod_st _ _ s₄ hInv₄) ?_
    intro fmth s₅ h5
    have hInv₅ : Inv s₅ := Inv.of_ok (fixupFrameMethod_st _ _ s₄ hInv₄) h5 hInv₄
    refine StOk.bind false false
      (fixupTargetMethod_st _ _ s₅ hInv₅) ?_
    intro tmth s₆ h6
    have hInv₆ : Inv s₆ := Inv.of_ok (fixupTargetMethod_st _ _ s₅ hInv₅) h6 hInv₅
    refine StOk.bind false false
      (fixupFrameDatum_st _ s₆ hInv₆) ?_
    intro fdat s₇ h7
    have hInv₇ : Inv s₇ := Inv.of_ok (fixupFrameDatum_st _ s₆ hInv₆) h7 hInv₆
    refine StOk.bind false false
      (fixupTargetDatum_st _ s₇ hInv₇) ?_
    intro tdat s₈ h8
    have hInv₈ : Inv s₈ := Inv.of_ok (fixupTargetDatum_st _ s₇ hInv₇) h8 hInv₇
    exact StOk.bind false false
      (fixupTargetDisp_st _ _ s₈ hInv₈)
      (fun td s₉ _ => StOk_pure _ s₉)

theorem fixuppLoop_st (is32 : Bool) (fuel : Nat) :
    ∀ (acc : List FixupSubrecord) (s : Parser), Inv s → s.next - s.ptr < fuel →
      StOk false s (Parser.fixuppLoop is32 fuel acc s) := by
  induction fuel with
  | zero => intro acc s _ hf; exact absurd hf (Nat.not_lt_zero _)
  | succ n ih =>
    intro acc s hInv hf
    obtain ⟨hi1, hi2⟩ := id hInv
    simp only [Parser.fixuppLoop]
    rw [if_neg (by omega : ¬ s.next < 1)]
    by_cases hc : s.ptr < s.next - 1
    · rw [if_pos hc]
      have hst := fixuppBody_st is32 s hInv
      cases hns : Parser.fixuppBody is32 s with
      | ok x s' =>
        obtain ⟨h1, h2, h3, h4⟩ := hst.ok_elim hns
        have h4' : s.ptr < s'.ptr := h4
        refine StOk.trans_frame h1 h2 h3 (Nat.le_of_lt h4') ?_
        exact ih (acc ++ [x]) s' (Inv.trans h1 h3 hInv) (by omega)
      | err e s' =>
        obtain ⟨h1, h2, h3⟩ := hst.err_elim hns
        exact ⟨h1, h2, h3⟩
      | fault => rw [hns] at hst; exact hst.elim
    · rw [if_neg hc]
      exact ⟨rfl, rfl, rfl, Nat.le_refl _⟩

theorem fixupp_st (is32 : Bool) (s : Parser) (hInv : Inv s) :
    StOk false s (Parser.fixupp is32 s) := by
  obtain ⟨hi1, hi2⟩ := id hInv
  unfold Parser.fixupp
  refine StOk.bind false false (StOk_getS s) ?_
  intro a s₁ hg
  injection hg with ha hs₁
  subst ha
  subst hs₁
  refine StOk.bind false false
    (fixuppLoop_st is32 (s.obj.length + 1) [] s hInv (by omega)) ?_
  intro fixups s₂ _
  exact StOk_pure _ s₂

theorem comdatDataLoop_st (fuel : Nat) :
    ∀ (acc : List Nat) (s : Parser), Inv s → s.next - s.ptr < fuel →
      StOk false s (Parser.comdatDataLoop fuel acc s) := by
  induction fuel with
  | zero => intro acc s _ hf; exact absurd hf (Nat.not_lt_zero _)
  | succ n ih =>
    intro acc s hInv hf
    obtain ⟨hi1, hi2⟩ := id hInv
    simp only [Parser.comdatDataLoop]
    rw [if_neg (by omega : ¬ s.next < 1)]
    by_cases hc : s.ptr < s.next - 1
    · rw [if_pos hc]
      have hst := next_uint_st1 1 s hInv (by omega)
      cases hns : Parser.next_uint 1 s with
      | ok x s' =>
        obtain ⟨h1, h2, h3, h4⟩ := hst.ok_elim hns
        have h4' : s.ptr < s'.ptr := h4
        refine StOk.trans_frame h1 h2 h3 (Nat.le_of_lt h4') ?_
        exact ih (acc ++ [x % 256]) s' (Inv.trans h1 h3 hInv) (by omega)
      | err e s' =>
        obtain ⟨h1, h2, h3⟩ := hst.err_elim hns
        exact ⟨h1, h2, h3⟩
      | fault => rw [hns] at hst; exact hst.elim
    · rw [if_neg hc]
      exact ⟨rfl, rfl, rfl, Nat.le_refl _⟩

theorem comdatBaseFrame_st (g sg : Option Nat) (s : Parser) (hInv : Inv s) :
    StOk false s (Parser.comdatBaseFrame g sg s) := by
  unfold Parser.comdatBaseFrame
  split
  · exact StOk.bind false false (next_uint_st 2 s hInv)
      (fun v s₁ _ => StOk_pure _ s₁)
  · exact StOk_pure _ s

theorem comdat_st (is32 : Bool) (s : Parser) (hInv : Inv s) :
    StOk false s (Parser.comdat is32 s) := by
  unfold Parser.comdat
  refine StOk.bind false false (next_uint_st 1 s hInv) ?_
  intro f s₁ h1
  have hInv₁ : Inv s₁ := Inv.of_ok (next_uint_st 1 s hInv) h1 hInv
  refine StOk.bind false false (next_uint_st 1 s₁ hInv₁) ?_
  intro at1 s₂ h2
  have hInv₂ : Inv s₂ := Inv.of_ok (next_uint_st 1 s₁ hInv₁) h2 hInv₁
  refine StOk.bind false false (next_uint_st 1 s₂ hInv₂) ?_
  intro al s₃ h3
  have hInv₃ : Inv s₃ := Inv.of_ok (next_uint_st 1 s₂ hInv₂) h3 hInv₂
  refine StOk.bind false false (next_uint_st _ s₃ hInv₃) ?_
  intro off s₄ h4
  have hInv₄ : Inv s₄ := Inv.of_ok (next_uint_st _ s₃ hInv₃) h4 hInv₃
  refine StOk.bind false false
    (next_index_st s₄ hInv₄).weaken ?_
  intro ti s₅ h5
  have hInv₅ : Inv s₅ := Inv.of_ok (next_index_st s₄ hInv₄) h5 hInv₄
  refine StOk.bind false false
    (next_opt_index_st s₅ hInv₅).weaken ?_
  intro bg s₆ h6
  have hInv₆ : Inv s₆ := Inv.of_ok (next_opt_index_st s₅ hInv₅) h6 hInv₅
  refine StOk.bind false false
    (next_opt_index_st s₆ hInv₆).weaken ?_
  intro bs s₇ h7
  have hInv₇ : Inv s₇ := Inv.of_ok (next_opt_index_st s₆ hInv₆) h7 hInv₆
  refine StOk.bind false false
    (comdatBaseFrame_st _ _ s₇ hInv₇) ?_
  intro bf s₈ h8
  have hInv₈ : Inv s₈ := Inv.of_ok (comdatBaseFrame_st _ _ s₇ hInv₇) h8 hInv₇
  refine StOk.bind false false
    (next_index_st s₈ hInv₈).weaken ?_
  intro nm s₉ h9
  have hInv₉ : Inv s₉ := Inv.of_ok (next_index_st s₈ hInv₈) h9 hInv₈
  obtain ⟨hi1, hi2⟩ := id hInv₉
  refine StOk.bind false false (StOk_getS s₉) ?_
  intro a s₁₀ hg
  injection hg with ha hs₁₀
  subst ha
  subst hs₁₀
  refine StOk.bind false false
    (comdatDataLoop_st (s₉.obj.length + 1) [] s₉ hInv₉ (by omega)) ?_
  intro data s₁₁ h11
  have hInv₁₁ : Inv s₁₁ :=
    Inv.of_ok (comdatDataLoop_st (s₉.obj.length + 1) [] s₉ hInv₉ (by omega))
      h11 hInv₉
  refine StOk.bind false false (StOk_liftE _ s₁₁) ?_
  intro sel s₁₂ h12
  refine StOk.bind false false (StOk_liftE _ s₁₂) ?_
  intro alloc s₁₃ h13
  refine StOk.bind false false (StOk_liftE _ s₁₃) ?_
  intro alg s₁₄ h14
  exact StOk_pure _ s₁₄

theorem record_st (t : Nat) (s : Parser) (hInv : Inv s) :
    StOk false s (Parser.record t s) := by
  unfold Parser.record
  split
  · exact StOk.bind false false (next_str_st s hInv).weaken
      (fun nm s₁ _ => StOk_pure _ s₁)
  · exact coment_st s hInv
  · exact modend_st false s hInv
  · exact modend_st true s hInv
  · exact extdef_st s hInv
  · exact pubdef_st false s hInv
  · exact pubdef_st true s hInv
  · exact lnames_st s hInv
  · exact segdef_st false s hInv
  · exact segdef_st true s hInv
  · exact grpdef_st s hInv
  · exact fixupp_st false s hInv
  · exact fixupp_st true s hInv
  · exact ledata_st false s hInv
  · exact ledata_st true s hInv
  · exact comdef_st s hInv
  · exact bakpat_st false s hInv
  · exact bakpat_st true s hInv
  · exact lextdef_st s hInv
  · exact lextdef_st s hInv
  · exact lpubdef_st false s hInv
  · exact lpubdef_st true s hInv
  · exact cextdef_st s hInv
  · exact comdat_st false s hInv
  · exact comdat_st true s hInv
  · exact aliasRec_st s hInv
  · exact ⟨rfl, rfl, rfl, Nat.le_refl _⟩

/-! ### The framer: `Parser::next` never panics and always moves the resume
position forward -/

theorem bind_err {α β : Type} {m : PM α} {k : α → PM β} {s : Parser}
    {e : ObjError} {s' : Parser} (h : (m >>= k) s = .err e s') :
    m s = .err e s' ∨ ∃ a s₁, m s = .ok a s₁ ∧ k a s₁ = .err e s' := by
  cases hm : m s with
  | ok a s₁ =>
    have hb : (m >>= k) s = k a s₁ := by rw [PM.bind_def, hm]
    rw [hb] at h
    exact Or.inr ⟨a, s₁, rfl, h⟩
  | err e₁ s₁ =>
    have hb : (m >>= k) s = .err e₁ s₁ := by rw [PM.bind_def, hm]
    rw [hb] at h
    injection h with he hs
    subst he
    subst hs
    exact Or.inl rfl
  | fault =>
    have hb : (m >>= k) s = .fault := by rw [PM.bind_def, hm]
    rw [hb] at h
    cases h

theorem bind_fault {α β : Type} {m : PM α} {k : α → PM β} {s : Parser}
    (h : (m >>= k) s = .fault) :
    m s = .fault ∨ ∃ a s₁, m s = .ok a s₁ ∧ k a s₁ = .fault := by
  cases hm : m s with
  | ok a s₁ =>
    have hb : (m >>= k) s = k a s₁ := by rw [PM.bind_def, hm]
    rw [hb] at h
    exact Or.inr ⟨a, s₁, rfl, h⟩
  | err e₁ s₁ =>
    have hb : (m >>= k) s = .err e₁ s₁ := by rw [PM.bind_def, hm]
    rw [hb] at h
    cases h
  | fault => exact Or.inl rfl

theorem checksum_ne_none (bytes : List Nat) (h : bytes ≠ []) :
    Parser.checksum bytes ≠ Option.none := by
  unfold Parser.checksum
  rw [List.getLast?_eq_getLast_of_ne_nil h]
  simp only []
  split_ifs <;> intro hx <;> cases hx

/-- The behaviour of one call to `Parser::next` from any state whose `start`
field is 0 (as every reachable state has): the call never faults, leaves
`obj` and `start` unchanged, and the new resume position `next` is either
the end of the buffer or at least 3 bytes past the old one. -/
theorem nextRec_st (s : Parser) (h0 : s.start = 0) :
    match Parser.nextRec s with
    | .ok _ s' => s'.obj = s.obj ∧ s'.start = 0 ∧
        (s'.next = s.obj.length ∨ s.next + 3 ≤ s'.next)
    | .err _ s' => s'.obj = s.obj ∧ s'.start = 0 ∧
        (s'.next = s.obj.length ∨ s.next + 3 ≤ s'.next)
    | .fault => False := by
  simp only [Parser.nextRec]
  by_cases hA : s.next ≥ s.obj.length
  · rw [if_pos hA]
    exact ⟨rfl, h0, Or.inl rfl⟩
  · rw [if_neg hA]
    by_cases hB : s.obj.length - s.next < 3
    · rw [if_pos hB]
      exact ⟨rfl, h0, Or.inl rfl⟩
    · rw [if_neg hB]
      have hInv0 : Inv (⟨s.obj, s.start, s.next, s.obj.length⟩ : Parser) :=
        ⟨by show 1 ≤ s.obj.length; omega, Nat.le_refl _⟩
      split
      case _ a s' heq =>
        obtain ⟨t, s1, h1, hk1⟩ := bind_ok heq
        obtain ⟨hs1, _, _⟩ := next_uint_ok h1
        have hInv1 : Inv s1 := Inv.of_ok (next_uint_st 1 _ hInv0) h1 hInv0
        obtain ⟨len2, s2, h2, hk2⟩ := bind_ok hk1
        obtain ⟨hs2, _, _⟩ := next_uint_ok h2
        have hInv2 : Inv s2 := Inv.of_ok (next_uint_st 2 s1 hInv1) h2 hInv1
        subst hs1
        subst hs2
        dsimp only [] at *
        simp only [sliceB, errM] at hk2
        split_ifs at hk2 with hc hsl
        cases hcs : Parser.checksum
            ((s.obj.drop s.start).take (s.next + 1 + 2 + len2 - s.start)) with
        | none => rw [hcs] at hk2; cases hk2
        | some chkOk =>
          rw [hcs] at hk2
          simp only [] at hk2
          split_ifs at hk2 with hok
          have hInv2' :
              Inv (⟨s.obj, s.start, s.next + 1 + 2, s.next + 1 + 2 + len2⟩ :
                Parser) := by
            constructor
            · show 1 ≤ s.next + 1 + 2 + len2
              omega
            · show s.next + 1 + 2 + len2 ≤ s.obj.length
              omega
          obtain ⟨r1, r2, r3, _⟩ := (record_st (t % 256) _ hInv2').ok_elim hk2
          have r1' : s'.obj = s.obj := r1
          have r2' : s'.start = s.start := r2
          have r3' : s'.next = s.next + 1 + 2 + len2 := r3
          exact ⟨r1', by omega, Or.inr (by omega)⟩
      case _ e s' heq =>
        rcases bind_err heq with h1 | ⟨t, s1, h1, hk1⟩
        · obtain ⟨he1, _⟩ := next_uint_err h1
          subst he1
          exact ⟨rfl, h0, Or.inl rfl⟩
        · obtain ⟨hs1, _, _⟩ := next_uint_ok h1
          have hInv1 : Inv s1 := Inv.of_ok (next_uint_st 1 _ hInv0) h1 hInv0
          rcases bind_err hk1 with h2 | ⟨len2, s2, h2, hk2⟩
          · obtain ⟨he2, _⟩ := next_uint_err h2
            subst he2
            subst hs1
            exact ⟨rfl, h0, Or.inl rfl⟩
          · obtain ⟨hs2, _, _⟩ := next_uint_ok h2
            have hInv2 : Inv s2 := Inv.of_ok (next_uint_st 2 s1 hInv1) h2 hInv1
            subst hs1
            subst hs2
            dsimp only [] at *
            simp only [sliceB, errM] at hk2
            split_ifs at hk2 with hc hsl
            · injection hk2 with he hs
              subst hs
              exact ⟨rfl, h0, Or.inl rfl⟩
            · cases hcs : Parser.checksum
                  ((s.obj.drop s.start).take
                    (s.next + 1 + 2 + len2 - s.start)) with
              | none => rw [hcs] at hk2; cases hk2
              | some chkOk =>
                rw [hcs] at hk2
                simp only [] at hk2
                split_ifs at hk2 with hok
                · injection hk2 with he hs
                  subst hs
                  refine ⟨rfl, h0, Or.inr ?_⟩
                  show s.next + 3 ≤ s.next + 1 + 2 + len2
                  omega
                · have hInv2' :
                      Inv (⟨s.obj, s.start, s.next + 1 + 2,
                        s.next + 1 + 2 + len2⟩ : Parser) := by
                    constructor
                    · show 1 ≤ s.next + 1 + 2 + len2
                      omega
                    · show s.next + 1 + 2 + len2 ≤ s.obj.length
                      omega
                  obtain ⟨r1, r2, r3⟩ :=
                    (record_st (t % 256) _ hInv2').err_elim hk2
                  have r1' : s'.obj = s.obj := r1
                  have r2' : s'.start = s.start := r2
                  have r3' : s'.next = s.next + 1 + 2 + len2 := r3
                  exact ⟨r1', by omega, Or.inr (by omega)⟩
      case _ heq =>
        rcases bind_fault heq with h1 | ⟨t, s1, h1, hk1⟩
        · have hnf := next_uint_st 1 _ hInv0
          rw [h1] at hnf
          exact hnf
        · obtain ⟨hs1, _, _⟩ := next_uint_ok h1
          have hInv1 : Inv s1 := Inv.of_ok (next_uint_st 1 _ hInv0) h1 hInv0
          rcases bind_fault hk1 with h2 | ⟨len2, s2, h2, hk2⟩
          · have hnf := next_uint_st 2 s1 hInv1
            rw [h2] at hnf
            exact hnf
          · obtain ⟨hs2, _, _⟩ := next_uint_ok h2
            have hInv2 : Inv s2 := Inv.of_ok (next_uint_st 2 s1 hInv1) h2 hInv1
            subst hs1
            subst hs2
            dsimp only [] at *
            simp only [sliceB, errM] at hk2
            split_ifs at hk2 with hc hsl
            · cases hcs : Parser.checksum
                  ((s.obj.drop s.start).take
                    (s.next + 1 + 2 + len2 - s.start)) with
              | none =>
                have hne :
                    (s.obj.drop s.start).take
                      (s.next + 1 + 2 + len2 - s.start) ≠ [] := by
                  intro hnil
                  have hlen := congrArg List.length hnil
                  simp only [List.length_take, List.length_drop,
                    List.length_nil] at hlen
                  omega
                exact absurd hcs (checksum_ne_none _ hne)
              | some chkOk =>
                rw [hcs] at hk2
                simp only [] at hk2
                split_ifs at hk2 with hok
                have hInv2' :
                    Inv (⟨s.obj, s.start, s.next + 1 + 2,
                      s.next + 1 + 2 + len2⟩ : Parser) := by
                  constructor
                  · show 1 ≤ s.next + 1 + 2 + len2
                    omega
                  · show s.next + 1 + 2 + len2 ≤ s.obj.length
                    omega
                have hnf := record_st (t % 256) _ hInv2'
                rw [hk2] at hnf
                exact hnf
            · refine hsl ⟨?_, ?_⟩
              · show s.start ≤ s.next + 1 + 2 + len2
                omega
              · show s.next + 1 + 2 + len2 ≤ s.obj.length
                omega

theorem nextRec_none (s : Parser) (h : s.obj.length ≤ s.next) :
    Parser.nextRec s =
      POut.ok Record.None ⟨s.obj, s.start, s.next, s.obj.length⟩ := by
  simp only [Parser.nextRec]
  rw [if_pos (show s.next ≥ s.obj.length from h)]

theorem stateAfter_spec (s : Parser) (h0 : s.start = 0) :
    (Parser.stateAfter s).obj = s.obj ∧ (Parser.stateAfter s).start = 0 ∧
      ((Parser.stateAfter s).next = s.obj.length ∨
        s.next + 3 ≤ (Parser.stateAfter s).next) := by
  have h := nextRec_st s h0
  unfold Parser.stateAfter
  cases hr : Parser.nextRec s with
  | ok r s' => rw [hr] at h; exact h
  | err e s' => rw [hr] at h; exact h
  | fault => rw [hr] at h; exact h.elim

theorem iterState_start (obj : List Nat) (k : Nat) :
    (Parser.iterState obj k).obj = obj ∧ (Parser.iterState obj k).start = 0 := by
  induction k with
  | zero => exact ⟨rfl, rfl⟩
  | succ n ih =>
    simp only [Parser.iterState]
    obtain ⟨h1, h2, _⟩ := stateAfter_spec (Parser.iterState obj n) ih.2
    exact ⟨h1.trans ih.1, h2⟩

theorem iterState_next (obj : List Nat) (k : Nat) :
    min obj.length (3 * k) ≤ (Parser.iterState obj k).next := by
  induction k with
  | zero => simp [Parser.iterState, Parser.new]
  | succ n ih =>
    obtain ⟨ho, hs⟩ := iterState_start obj n
    obtain ⟨h1, h2, h3⟩ := stateAfter_spec (Parser.iterState obj n) hs
    simp only [Parser.iterState]
    rcases h3 with h3 | h3
    · rw [h3, ho]
      exact Nat.min_le_left _ _
    · omega

/-- C9: for every input byte buffer, arbitrary and possibly malformed, every
call to `Parser::next()` (from any state the parser can reach by repeated
calls starting at `Parser::new`) returns `Ok` or `Err` and never panics: no
slice indexing or slicing goes out of bounds and no arithmetic underflows
(`POut.fault` marks exactly the panic sites of the Rust code). -/
theorem c9_parser_next_never_panics (obj : List Nat) (k : Nat) :
    Parser.nextRec (Parser.iterState obj k) ≠ POut.fault := by
  obtain ⟨_, hs⟩ := iterState_start obj k
  have h := nextRec_st (Parser.iterState obj k) hs
  intro hf
  rw [hf] at h
  exact h

/-- C10: every call to `Parser::next()` either moves the resume position to
the end of the buffer or advances it by at least 3 bytes, on success and on
error alike; consequently after at most `⌈length / 3⌉` calls every further
call returns `Record::None`. -/
theorem c10_parser_next_progress (obj : List Nat) :
    (∀ p n : Nat,
        (Parser.stateAfter ⟨obj, 0, p, n⟩).next = obj.length ∨
          n + 3 ≤ (Parser.stateAfter ⟨obj, 0, p, n⟩).next) ∧
    (∀ k : Nat,
        Parser.nextRec (Parser.iterState obj ((obj.length + 2) / 3 + k)) =
          POut.ok Record.None
            (Parser.iterState obj ((obj.length + 2) / 3 + k + 1))) := by
  constructor
  · intro p n
    exact (stateAfter_spec ⟨obj, 0, p, n⟩ rfl).2.2
  · intro k
    obtain ⟨ho, hs⟩ := iterState_start obj ((obj.length + 2) / 3 + k)
    have hnext := iterState_next obj ((obj.length + 2) / 3 + k)
    have h3m : obj.length ≤ 3 * ((obj.length + 2) / 3 + k) := by
      have hd := Nat.div_add_mod (obj.length + 2) 3
      have hm2 : (obj.length + 2) % 3 < 3 := Nat.mod_lt _ (by omega)
      omega
    have hge : (Parser.iterState obj ((obj.length + 2) / 3 + k)).obj.length ≤
        (Parser.iterState obj ((obj.length + 2) / 3 + k)).next := by
      rw [ho]
      omega
    have hn := nextRec_none _ hge
    rw [show Parser.iterState obj ((obj.length + 2) / 3 + k + 1) =
      Parser.stateAfter (Parser.iterState obj ((obj.length + 2) / 3 + k))
      from rfl]
    unfold Parser.stateAfter
    rw [hn]

/-- C1: the checksum is NOT computed over the current frame's own bytes.
`Parser.start` is never updated from 0, so `next()` sums
`obj[0 .. frame_end]`, and bytes of earlier frames change the verdict.
Witnessed here: in the buffer `42 01 00 00 42 01 00 bd` the second frame
(at offset 4) has its own byte sum `0x42+0x01+0x00+0xbd = 0x100 ≡ 0 (mod
256)` and a nonzero trailing checksum byte `0xbd`, so by the claim `next()`
must not return a checksum error — but the code does, because the first
frame's bytes (sum `0x43`, accepted via its 0x00 checksum byte) are included
in the sum. -/
theorem c1_checksum_covers_earlier_frames :
    ((0x42 + 0x01 + 0x00 + 0xBD) % 256 = 0 ∧ (0xBD : Nat) ≠ 0) ∧
    Parser.nextRec
        (Parser.stateAfter
          (Parser.new [0x42, 0x01, 0x00, 0x00, 0x42, 0x01, 0x00, 0xBD])) =
      POut.err ⟨"checksum failed", some 0⟩
        ⟨[0x42, 0x01, 0x00, 0x00, 0x42, 0x01, 0x00, 0xBD], 0, 7, 8⟩ := by
  decide

/-- C2: errors do NOT carry the byte offset of the frame being processed.
`Parser.start` is never assigned after `Parser::new`, so `Parser::err`
always reports offset 0.  Witnessed here: in the buffer `42 01 00 00 80`
the second call to `next()` fails on the frame starting at offset 4, yet
the error carries offset `some 0` (and `0 ≠ 4`). -/
theorem c2_error_offset_always_zero :
    Parser.nextRec
        (Parser.stateAfter (Parser.new [0x42, 0x01, 0x00, 0x00, 0x80])) =
      POut.err ⟨"record header truncated", some 0⟩
        ⟨[0x42, 0x01, 0x00, 0x00, 0x80], 0, 4, 5⟩ ∧ (0 : Nat) ≠ 4 := by
  decide

/-- C3: `next_str` bounds the string body against `obj.len()`, not against
the payload end `endrec()`.  Witnessed here: the LNAMES frame
`96 03 00 02 41 00` declares a counted string of length 2 at payload
position 4 while the payload range ends at 5 (the byte at index 5 is the
frame's checksum byte); the claim demands a Truncated error, but decoding
succeeds and the returned string `[0x41, 0x00]` contains the checksum byte.
The final conjunct records that the declared body `[4, 4+2)` indeed
extends past the payload end `6 - 1 = 5`. -/
theorem c3_next_str_reads_past_payload :
    Parser.nextRec (Parser.new [0x96, 0x03, 0x00, 0x02, 0x41, 0x00]) =
      POut.ok (Record.LNAMES [[0x41, 0x00]])
        ⟨[0x96, 0x03, 0x00, 0x02, 0x41, 0x00], 0, 6, 6⟩ ∧
    (6 : Nat) - 1 < 4 + 2 := by
  decide

/-- C4 (counterexample): the GRPDEF frame `9a 02 00 02 62` whose payload
holds only the group name index decodes successfully to
`GRPDEF{name: 2, segs: []}`; the claimed `TruncatedGrpdef` error does not
exist in the code. -/
theorem c4_counterexample_empty_grpdef_ok :
    Parser.nextRec (Parser.new [0x9a, 0x02, 0x00, 0x02, 0x62]) =
      POut.ok (Record.GRPDEF 2 [])
        ⟨[0x9a, 0x02, 0x00, 0x02, 0x62], 0, 4, 5⟩ := by
  decide

/-- C4 (amended): a GRPDEF record whose payload contains only the group name
index decodes successfully with an empty segment list — the decoder imposes
no minimum segment count. -/
theorem c4_amended_empty_grpdef_decodes (s s' : Parser) (name : Nat)
    (h : Parser.next_index s = POut.ok name s')
    (hend : s'.next - 1 ≤ s'.ptr) :
    Parser.grpdef s = POut.ok (Record.GRPDEF name []) s' := by
  have hnext : 2 ≤ s'.next := by
    unfold Parser.next_index at h
    obtain ⟨b, s₁, hu1, hk⟩ := bind_ok h
    obtain ⟨hs₁, _, hle⟩ := next_uint_ok hu1
    subst hs₁
    by_cases hb : b < 0x80
    · rw [if_pos hb, PM.pure_def] at hk
      injection hk with hv hs
      subst hs
      show 2 ≤ s.next
      omega
    · rw [if_neg hb] at hk
      obtain ⟨b2, s₂, hu2, hk2⟩ := bind_ok hk
      obtain ⟨hs₂, _, hle2⟩ := next_uint_ok hu2
      subst hs₂
      rw [PM.pure_def] at hk2
      injection hk2 with hv hs
      subst hs
      show 2 ≤ s.next
      omega
  unfold Parser.grpdef
  rw [PM.bind_def, h]
  simp only []
  rw [PM.bind_def]
  simp only [getS]
  rw [PM.bind_def]
  have hloop : Parser.grpdefLoop (s'.obj.length + 1) [] s' = POut.ok [] s' := by
    simp only [Parser.grpdefLoop]
    rw [if_neg (by omega : ¬ s'.next < 1),
      if_neg (by omega : ¬ s'.ptr < s'.next - 1)]
  rw [hloop]
  rfl

/-- C5: SEGDEF BIG-bit handling (objfile.rs lines 666–673).  With the BIG
bit of the ACBP byte set: (i) a nonzero length field is rejected with the
error "length not zero when BIG bit it set"; (ii) any successfully decoded
segment has length `2^16` (`2^32` for the 32-bit record); (iii) a decoding
error in the loop body aborts `segdef` decoding with that error. -/
theorem c5_segdef_big_bit (is32 : Bool) (s s1 t : Parser) (a : Nat)
    (al : Align) (cmb : Combine) (absv : Option AbsoluteSeg)
    (h1 : Parser.next_uint 1 s = POut.ok a s1)
    (h2 : Align.try_from ((a % 256) >>> 5) = Except.ok al)
    (h3 : Combine.try_from (((a % 256) >>> 2) &&& 7) = Except.ok cmb)
    (hbig : (a % 256) &&& 2 ≠ 0)
    (h4 : Parser.segdefAbs al s1 = POut.ok absv t) :
    (∀ v t1, Parser.next_uint (if is32 then 4 else 2) t = POut.ok v t1 →
        v ≠ 0 →
        Parser.segdefBody is32 s =
          POut.err
            (ObjError.with_offset "length not zero when BIG bit it set"
              t1.start) t1) ∧
    (∀ seg s', Parser.segdefBody is32 s = POut.ok seg s' →
        seg.length = 2 ^ (if is32 then 32 else 16)) ∧
    (∀ e s' fuel acc, Parser.segdefBody is32 s = POut.err e s' →
        1 ≤ s.next → s.ptr < s.next - 1 →
        Parser.segdefLoop is32 (fuel + 1) acc s = POut.err e s') := by
  refine ⟨?_, ?_, ?_⟩
  · intro v t1 hv hv0
    unfold Parser.segdefBody
    simp only [PM.bind_def, h1, h2, h3, h4, hv, Parser.segdefLen, liftE, errM,
      decide_eq_true hbig]
    simp [hv0, errM]
  · intro seg s' hok
    unfold Parser.segdefBody at hok
    obtain ⟨a', s₁, h1', hk1⟩ := bind_ok hok
    have haa : a' = a ∧ s₁ = s1 := by
      have h := h1.symm.trans h1'
      injection h with x y
      exact ⟨x.symm, y.symm⟩
    obtain ⟨ha, hseq⟩ := haa
    subst ha
    subst hseq
    obtain ⟨al', s₂, h2', hk2⟩ := bind_ok hk1
    obtain ⟨cmb', s₃, h3', hk3⟩ := bind_ok hk2
    obtain ⟨ab, s₄, h4', hk4⟩ := bind_ok hk3
    obtain ⟨len, s₅, h5, hk5⟩ := bind_ok hk4
    obtain ⟨c, s₆, h6, hk6⟩ := bind_ok hk5
    obtain ⟨nm, s₇, h7, hk7⟩ := bind_ok hk6
    obtain ⟨ov, s₈, h8, hk8⟩ := bind_ok hk7
    rw [PM.pure_def] at hk8
    injection hk8 with hseg hs'
    subst hseg
    show len = 2 ^ (if is32 then 32 else 16)
    rw [decide_eq_true hbig] at h5
    unfold Parser.segdefLen at h5
    obtain ⟨l0, t0, hl0, hk0⟩ := bind_ok h5
    rw [if_pos rfl] at hk0
    by_cases hz : l0 ≠ 0
    · rw [if_pos hz] at hk0
      simp only [errM] at hk0
      exact POut.noConfusion hk0
    · rw [if_neg hz, PM.pure_def] at hk0
      injection hk0 with hlen _
      rw [← hlen, Nat.shiftLeft_eq, one_mul]
  · intro e s' fuel acc hbody hn1 hp
    simp only [Parser.segdefLoop]
    rw [if_neg (by omega : ¬ s.next < 1), if_pos hp, hbody]

theorem c5_witness :
    Parser.segdefBody false ⟨[0x42, 0x01, 0x00, 0, 0, 0, 0, 0], 0, 0, 8⟩ =
      POut.err
        (ObjError.with_offset "length not zero when BIG bit it set" 0)
        ⟨[0x42, 0x01, 0x00, 0, 0, 0, 0, 0], 0, 3, 8⟩ :=
  (c5_segdef_big_bit false
      ⟨[0x42, 0x01, 0x00, 0, 0, 0, 0, 0], 0, 0, 8⟩
      ⟨[0x42, 0x01, 0x00, 0, 0, 0, 0, 0], 0, 1, 8⟩
      ⟨[0x42, 0x01, 0x00, 0, 0, 0, 0, 0], 0, 1, 8⟩ 0x42
      Align.Word Combine.Private Option.none
      (by decide) (by rfl) (by rfl) (by decide) (by decide)).1 1
    ⟨[0x42, 0x01, 0x00, 0, 0, 0, 0, 0], 0, 3, 8⟩ (by decide) (by decide)

/-- C6: in `Parser::pubdef` and `Parser::lpubdef` the 2-byte base frame is
read exactly when both the group index and the segment index decode to
`None`; consequently in any decoded record the frame is present iff both
indices are absent (equivalently, exactly one of "some index present" /
"frame present" holds). -/
theorem c6_pubdef_frame_iff (is32 : Bool) (s : Parser) :
    (∀ g sg fr pubs s',
        Parser.pubdef is32 s = POut.ok (Record.PUBDEF g sg fr pubs) s' →
        (fr.isSome ↔ (g = Option.none ∧ sg = Option.none)) ∧
          Xor' (g.isSome ∨ sg.isSome) fr.isSome) ∧
    (∀ g sg fr pubs s',
        Parser.lpubdef is32 s = POut.ok (Record.LPUBDEF g sg fr pubs) s' →
        (fr.isSome ↔ (g = Option.none ∧ sg = Option.none)) ∧
          Xor' (g.isSome ∨ sg.isSome) fr.isSome) := by
  constructor
  · intro g sg fr pubs s' h
    unfold Parser.pubdef at h
    obtain ⟨g0, s₁, h1, hk1⟩ := bind_ok h
    obtain ⟨sg0, s₂, h2, hk2⟩ := bind_ok hk1
    split at hk2
    · obtain ⟨v, s₃, h3, hk3⟩ := bind_ok hk2
      obtain ⟨y, s₄, h4, hk4⟩ := bind_ok hk3
      rw [PM.pure_def] at h4
      injection h4 with hy1 hy2
      subst hy1
      subst hy2
      obtain ⟨a, s₅, h5, hk5⟩ := bind_ok hk4
      injection h5 with ha hs₅
      subst ha
      subst hs₅
      obtain ⟨pubs0, s₆, h6, hk6⟩ := bind_ok hk5
      rw [PM.pure_def] at hk6
      injection hk6 with hv hs
      injection hv with e1 e2 e3 e4
      subst e1
      subst e2
      subst e3
      subst e4
      rename_i hc
      rw [Bool.and_eq_true, Option.isNone_iff_eq_none,
        Option.isNone_iff_eq_none] at hc
      obtain ⟨hg, hsg⟩ := hc
      subst hg
      subst hsg
      simp [Xor']
    · obtain ⟨y, s₃, h3, hk3⟩ := bind_ok hk2
      rw [PM.pure_def] at h3
      injection h3 with hy1 hy2
      subst hy1
      subst hy2
      obtain ⟨a, s₄, h4, hk4⟩ := bind_ok hk3
      injection h4 with ha hs₄
      subst ha
      subst hs₄
      obtain ⟨pubs0, s₅, h5, hk5⟩ := bind_ok hk4
      rw [PM.pure_def] at hk5
      injection hk5 with hv hs
      injection hv with e1 e2 e3 e4
      subst e1
      subst e2
      subst e3
      subst e4
      rename_i hc
      rcases g0 with _ | gv
      · rcases sg0 with _ | sv
        · exact absurd rfl hc
        · simp [Xor']
      · simp [Xor']
  · intro g sg fr pubs s' h
    unfold Parser.lpubdef at h
    obtain ⟨g0, s₁, h1, hk1⟩ := bind_ok h
    obtain ⟨sg0, s₂, h2, hk2⟩ := bind_ok hk1
    split at hk2
    · obtain ⟨v, s₃, h3, hk3⟩ := bind_ok hk2
      obtain ⟨y, s₄, h4, hk4⟩ := bind_ok hk3
      rw [PM.pure_def] at h4
      injection h4 with hy1 hy2
      subst hy1
      subst hy2
      obtain ⟨a, s₅, h5, hk5⟩ := bind_ok hk4
      injection h5 with ha hs₅
      subst ha
      subst hs₅
      obtain ⟨pubs0, s₆, h6, hk6⟩ := bind_ok hk5
      rw [PM.pure_def] at hk6
      injection hk6 with hv hs
      injection hv with e1 e2 e3 e4
      subst e1
      subst e2
      subst e3
      subst e4
      rename_i hc
      rw [Bool.and_eq_true, Option.isNone_iff_eq_none,
        Option.isNone_iff_eq_none] at hc
      obtain ⟨hg, hsg⟩ := hc
      subst hg
      subst hsg
      simp [Xor']
    · obtain ⟨y, s₃, h3, hk3⟩ := bind_ok hk2
      rw [PM.pure_def] at h3
      injection h3 with hy1 hy2
      subst hy1
      subst hy2
      obtain ⟨a, s₄, h4, hk4⟩ := bind_ok hk3
      injection h4 with ha hs₄
      subst ha
      subst hs₄
      obtain ⟨pubs0, s₅, h5, hk5⟩ := bind_ok hk4
      rw [PM.pure_def] at hk5
      injection hk5 with hv hs
      injection hv with e1 e2 e3 e4
      subst e1
      subst e2
      subst e3
      subst e4
      rename_i hc
      rcases g0 with _ | gv
      · rcases sg0 with _ | sv
        · exact absurd rfl hc
        · simp [Xor']
      · simp [Xor']

theorem c6_witness :
    ((Option.some (0x1234 : Nat)).isSome ↔
        ((Option.none : Option Nat) = Option.none ∧
          (Option.none : Option Nat) = Option.none)) ∧
      Xor' ((Option.none : Option Nat).isSome ∨ (Option.none : Option Nat).isSome)
        (Option.some (0x1234 : Nat)).isSome :=
  (c6_pubdef_frame_iff false ⟨[0, 0, 0x34, 0x12, 0], 0, 0, 5⟩).1
    Option.none Option.none (Option.some 0x1234) []
    ⟨[0, 0, 0x34, 0x12, 0], 0, 4, 5⟩ (by decide)

/-- C7: `Parser::next_index` decodes the OMF variable-length index: a first
byte below 0x80 is the index itself (one byte consumed); otherwise a second
byte is read and the index is `((first & 0x7f) << 8) | second` (two bytes
consumed).  `Parser::next_opt_index` maps the decoded value 0 to `None` and
any nonzero value `v` to `Some v`. -/
theorem c7_next_index_encoding (s : Parser) :
    (∀ b s1, Parser.next_uint 1 s = POut.ok b s1 → b < 0x80 →
        Parser.next_index s = POut.ok b s1 ∧ s1.ptr = s.ptr + 1) ∧
    (∀ b s1 b2 s2, Parser.next_uint 1 s = POut.ok b s1 → ¬ b < 0x80 →
        Parser.next_uint 1 s1 = POut.ok b2 s2 →
        Parser.next_index s = POut.ok (((b &&& 0x7f) <<< 8) ||| b2) s2 ∧
          s2.ptr = s.ptr + 2) ∧
    (∀ v s1, Parser.next_index s = POut.ok v s1 →
        Parser.next_opt_index s =
          POut.ok (if v = 0 then Option.none else Option.some v) s1) := by
  refine ⟨?_, ?_, ?_⟩
  · intro b s1 h hb
    constructor
    · unfold Parser.next_index
      rw [PM.bind_def, h]
      simp only []
      rw [if_pos hb, PM.pure_def]
    · obtain ⟨hs1, _, _⟩ := next_uint_ok h
      rw [hs1]
  · intro b s1 b2 s2 h hb h2
    constructor
    · unfold Parser.next_index
      rw [PM.bind_def, h]
      simp only []
      rw [if_neg hb, PM.bind_def, h2]
      simp only []
      rw [PM.pure_def]
    · obtain ⟨hs1, _, _⟩ := next_uint_ok h
      obtain ⟨hs2, _, _⟩ := next_uint_ok h2
      rw [hs2, hs1]
  · intro v s1 h
    unfold Parser.next_opt_index
    rw [PM.bind_def, h]
    simp only []
    rcases v with _ | n
    · rw [if_pos rfl]
      rfl
    · rw [if_neg (Nat.succ_ne_zero n)]
      rfl

theorem c7_witness :
    (Parser.next_index ⟨[0x05], 0, 0, 2⟩ =
        POut.ok 5 ⟨[0x05], 0, 1, 2⟩ ∧
      (Parser.mk [0x05] 0 1 2).ptr = 0 + 1) ∧
    Parser.next_opt_index ⟨[0x05], 0, 0, 2⟩ =
      POut.ok (Option.some 5) ⟨[0x05], 0, 1, 2⟩ :=
  ⟨(c7_next_index_encoding ⟨[0x05], 0, 0, 2⟩).1 5 ⟨[0x05], 0, 1, 2⟩
      (by decide) (by decide),
    (c7_next_index_encoding ⟨[0x05], 0, 0, 2⟩).2.2 5 ⟨[0x05], 0, 1, 2⟩
      (by decide)⟩

/-- Forward evaluation of `next_uint` on a state whose bounds are known. -/
theorem next_uint_eval (n : Nat) (s : Parser) (h1 : 1 ≤ s.next)
    (h2 : s.ptr + n ≤ s.next - 1) (h3 : s.next ≤ s.obj.length) :
    Parser.next_uint n s =
      POut.ok (Parser.uint ((s.obj.drop s.ptr).take n))
        ⟨s.obj, s.start, s.ptr + n, s.next⟩ := by
  simp only [Parser.next_uint, Parser.endrecM, subB, sliceB, errM]
  rw [if_pos h1, if_neg (by omega : ¬ s.ptr + n > s.next - 1),
    if_pos ⟨Nat.le_add_right _ _, by omega⟩, Nat.add_sub_cancel_left]

/-- C8: a frame whose trailing checksum byte is 0x00 is accepted without
summing: `Parser::checksum` returns true outright when the final byte is 0,
and `next()` proceeds to dispatch on the record type instead of returning a
checksum error.  Here `r` is the cursor position of the frame header (the
value of `self.next` on entry), `lenv` the declared payload length. -/
theorem c8_zero_checksum_byte_accepted (obj : List Nat) (p r lenv : Nat)
    (hlen : lenv = Parser.uint ((obj.drop (r + 1)).take 2))
    (h1 : r + 4 ≤ obj.length)
    (h3 : r + 3 + lenv ≤ obj.length)
    (h5 : obj[r + 2 + lenv]? = some 0) :
    Parser.checksum (obj.take (r + 3 + lenv)) = some true ∧
    Parser.nextRec ⟨obj, 0, p, r⟩ =
      Parser.record (Parser.uint ((obj.drop r).take 1) % 256)
        ⟨obj, 0, r + 3, r + 3 + lenv⟩ := by
  have hchk : Parser.checksum (obj.take (r + 3 + lenv)) = some true := by
    have hl : (obj.take (r + 3 + lenv)).length = r + 3 + lenv := by
      rw [List.length_take]
      omega
    have hlast : (obj.take (r + 3 + lenv)).getLast? = some 0 := by
      rw [List.getLast?_eq_getElem?, hl, List.getElem?_take,
        if_pos (by omega : r + 3 + lenv - 1 < r + 3 + lenv),
        (by omega : r + 3 + lenv - 1 = r + 2 + lenv)]
      exact h5
    unfold Parser.checksum
    rw [hlast]
    rfl
  refine ⟨hchk, ?_⟩
  simp only [Parser.nextRec]
  rw [if_neg (by omega : ¬ r ≥ obj.length),
    if_neg (by omega : ¬ obj.length - r < 3)]
  rw [PM.bind_def,
    next_uint_eval 1 ⟨obj, 0, r, obj.length⟩ (by show 1 ≤ obj.length; omega)
      (by show r + 1 ≤ obj.length - 1; omega)
      (by show obj.length ≤ obj.length; omega)]
  simp only []
  rw [PM.bind_def,
    next_uint_eval 2 ⟨obj, 0, r + 1, obj.length⟩ (by show 1 ≤ obj.length; omega)
      (by show r + 1 + 2 ≤ obj.length - 1; omega)
      (by show obj.length ≤ obj.length; omega)]
  simp only []
  rw [← hlen]
  rw [if_neg (by omega : ¬ r + 1 + 2 + lenv > obj.length)]
  simp only [sliceB]
  rw [if_pos ⟨Nat.zero_le _, by omega⟩, List.drop_zero, Nat.sub_zero, hchk]
  rfl

theorem c8_witness :
    Parser.checksum ([0x42, 0x02, 0x00, 0xAA, 0x00].take (0 + 3 + 2)) =
        some true ∧
      Parser.nextRec ⟨[0x42, 0x02, 0x00, 0xAA, 0x00], 0, 0, 0⟩ =
        Parser.record
          (Parser.uint (([0x42, 0x02, 0x00, 0xAA, 0x00].drop 0).take 1) % 256)
          ⟨[0x42, 0x02, 0x00, 0xAA, 0x00], 0, 0 + 3, 0 + 3 + 2⟩ :=
  c8_zero_checksum_byte_accepted [0x42, 0x02, 0x00, 0xAA, 0x00] 0 0 2
    (by decide) (by decide) (by decide) (by decide)

theorem c4_amended_witness :
    Parser.grpdef ⟨[2, 0], 0, 0, 2⟩ =
      POut.ok (Record.GRPDEF 2 []) ⟨[2, 0], 0, 1, 2⟩ :=
  c4_amended_empty_grpdef_decodes ⟨[2, 0], 0, 0, 2⟩ ⟨[2, 0], 0, 1, 2⟩ 2
    (by decide) (by decide)

end DosTools
